import Mathlib

/-!
Verification of the saltybytes recipe-generation orchestrator and
versioned edit tree.  The Go source under internal/repository,
internal/service and internal/db/migrations is shallowly embedded:
the relational store becomes an explicit `Store` value, every gorm
transaction becomes a pure function `Store → Except StoreErr Store`
(an error returns the original store, mirroring rollback), and the
repository / service functions are translated line by line.
Rows are kept in insertion order, which models the `created_at ASC`
orderings used by the queries (rows are only appended).
-/

namespace SaltyBytes

/-- The RecipeType enum of internal/models (part_017). -/
inductive RecipeType where
  | chat
  | regenChat
  | fork
  | copycat
  | importVision
  | importLink
  | importCopypasta
  | manualEntry
  | remix
deriving Repr, DecidableEq

/-- One ingredient of a recipe definition.  The Go struct additionally
carries float64 amount fields; no operation verified here inspects them,
so they are not modelled. -/
structure Ingredient where
  name : String
  unitText : String
  originalText : String
  normalizedUnit : String
  isEstimated : Bool
deriving Repr, DecidableEq

/-- The materialized recipe definition (models.RecipeDef), restricted to
the fields that the verified operations read or write. -/
structure RecipeDef where
  title : String
  ingredients : List Ingredient
  instructions : List String
  cookTime : Nat
  linkedSuggestions : List String
  imagePrompt : String
  hashtags : List String
  portions : Nat
  portionSize : String
  sourceURL : String
deriving Repr, DecidableEq

/-- models.RecipeHistoryEntry: one turn of the legacy linear history. -/
structure RecipeHistoryEntry where
  prompt : String
  response : Option RecipeDef
  summary : String
  type : RecipeType
deriving Repr, DecidableEq

/-- models.Recipe, restricted to the fields used by the verified
operations.  `history = none` models a NULL/0 history_id; the entries are
inlined (the Go code always accesses them through the preloaded
association). -/
structure Recipe where
  id : Nat
  recipeDef : RecipeDef
  imageURL : String
  createdByID : Nat
  history : Option (List RecipeHistoryEntry)
  treeID : Option Nat
deriving Repr, DecidableEq

/-- models.RecipeTree. -/
structure RecipeTree where
  id : Nat
  recipeID : Nat
  rootNodeID : Option Nat
deriving Repr, DecidableEq

/-- models.RecipeNode. -/
structure RecipeNode where
  id : Nat
  treeID : Nat
  parentID : Option Nat
  prompt : String
  response : Option RecipeDef
  summary : String
  type : RecipeType
  branchName : String
  isEphemeral : Bool
  createdByID : Nat
  isActive : Bool
deriving Repr, DecidableEq

/-- Errors surfaced by the embedded repository layer. -/
inductive StoreErr where
  | notFound (msg : String)
  | storage (msg : String)
  | invalid (msg : String)
deriving Repr, DecidableEq

/-- The relational store: recipes, trees and nodes tables plus the
autoincrement counters for the two tables whose fresh keys matter. -/
structure Store where
  recipes : List Recipe
  trees : List RecipeTree
  nodes : List RecipeNode
  nextTreeID : Nat
  nextNodeID : Nat
deriving Repr, DecidableEq

/-- db.First(&node, nodeID): primary-key lookup in the nodes table. -/
def Store.findNodeByID (s : Store) (nodeID : Nat) : Option RecipeNode :=
  s.nodes.find? (fun n => n.id == nodeID)

/-- RecipeRepository.GetNodeByID (recipe_tree.go:91). -/
def Store.getNodeByID (s : Store) (nodeID : Nat) : Except StoreErr RecipeNode :=
  match s.findNodeByID nodeID with
  | some n => .ok n
  | none => .error (.notFound "recipe node not found")

/-- RecipeRepository.GetTreeByRecipeID (recipe_tree.go:52). -/
def Store.getTreeByRecipeID (s : Store) (recipeID : Nat) : Except StoreErr RecipeTree :=
  match s.trees.find? (fun t => t.recipeID == recipeID) with
  | some t => .ok t
  | none => .error (.notFound "record not found")

/-- RecipeRepository.GetActiveNode (recipe_tree.go:78). -/
def Store.getActiveNode (s : Store) (treeID : Nat) : Except StoreErr RecipeNode :=
  match s.nodes.find? (fun n => n.treeID == treeID && n.isActive) with
  | some n => .ok n
  | none => .error (.notFound "no active node found")

/-- RecipeRepository.AddNodeToTree (recipe_tree.go:134).  The insert
assigns the fresh primary key; when `setActive` holds, the same
transaction first deactivates every other node of the tree and then
activates the created one (two UPDATE statements, modelled as two maps).
Returns the created node id together with the updated store. -/
def Store.addNodeToTree (s : Store) (node : RecipeNode) (setActive : Bool) : Nat × Store :=
  let newID := s.nextNodeID
  let created := { node with id := newID }
  let inserted := s.nodes ++ [created]
  let updated :=
    if setActive then
      (inserted.map (fun n =>
        if n.treeID == created.treeID && n.id != newID then { n with isActive := false } else n)).map
        (fun n => if n.id == newID then { n with isActive := true } else n)
    else inserted
  (newID, { s with nodes := updated, nextNodeID := newID + 1 })

/-- RecipeRepository.SetActiveNode (recipe_tree.go:157).  Verifies the
node belongs to the tree, then deactivates every node of the tree and
activates the target (the final UPDATE is keyed on the node id alone,
exactly as in the source). -/
def Store.setActiveNode (s : Store) (treeID nodeID : Nat) : Except StoreErr Store :=
  match s.nodes.find? (fun n => n.id == nodeID && n.treeID == treeID) with
  | none => .error (.storage "node does not belong to the specified tree")
  | some _ =>
    let deactivated := s.nodes.map (fun n =>
      if n.treeID == treeID then { n with isActive := false } else n)
    let activated := deactivated.map (fun n =>
      if n.id == nodeID then { n with isActive := true } else n)
    .ok { s with nodes := activated }

/-- The nodes of one tree that carry the active flag, in table order. -/
def Store.activeNodesInTree (s : Store) (treeID : Nat) : List RecipeNode :=
  s.nodes.filter (fun n => n.treeID == treeID && n.isActive)

/-- RecipeRepository.CreateRecipeTree (recipe_tree.go:15).  The function
body performs no check that the recipe already has a tree; the only
enforcement of the 1:1 relationship is the database unique index on
trees.recipe_id (models, RecipeTree.RecipeID uniqueIndex).  The
`enforceUniqueIndex` flag models whether that index is present in the
schema; the INSERT of the tree row violates it exactly when a tree for
the recipe exists.  An error rolls the whole transaction back. -/
def Store.createRecipeTree (enforceUniqueIndex : Bool) (s : Store) (recipeID : Nat)
    (rootNode : RecipeNode) : Except StoreErr (Nat × Store) :=
  if enforceUniqueIndex && s.trees.any (fun t => t.recipeID == recipeID) then
    .error (.storage "UNIQUE constraint failed: trees.recipe_id")
  else
    let treeID := s.nextTreeID
    let tree : RecipeTree := { id := treeID, recipeID := recipeID, rootNodeID := none }
    let nodeID := s.nextNodeID
    let created := { rootNode with id := nodeID, treeID := treeID, isActive := true }
    let tree2 := { tree with rootNodeID := some nodeID }
    let recipes2 := s.recipes.map (fun r =>
      if r.id == recipeID then { r with treeID := some treeID } else r)
    .ok (treeID,
      { s with recipes := recipes2, trees := s.trees ++ [tree2],
               nodes := s.nodes ++ [created],
               nextTreeID := treeID + 1, nextNodeID := nodeID + 1 })

/-- The store left behind by CreateRecipeTree once the transaction has
either committed or rolled back. -/
def Store.runCreateRecipeTree (enforceUniqueIndex : Bool) (s : Store) (recipeID : Nat)
    (rootNode : RecipeNode) : Store :=
  match Store.createRecipeTree enforceUniqueIndex s recipeID rootNode with
  | .ok (_, s2) => s2
  | .error _ => s

/-- RecipeRepository.UpdateRecipeFromNode (recipe_tree.go:183): a nil
response is rejected before any write; otherwise the recipe's core fields
are updated from the node's response and SetActiveNode runs, any error
rolling everything back. -/
def Store.updateRecipeFromNode (s : Store) (recipeID : Nat) (node : RecipeNode) :
    Except StoreErr Store :=
  match node.response with
  | none => .error (.invalid "node response is nil")
  | some resp =>
    let recipes2 := s.recipes.map (fun r =>
      if r.id == recipeID then
        { r with recipeDef := { r.recipeDef with
            title := resp.title, ingredients := resp.ingredients,
            instructions := resp.instructions, cookTime := resp.cookTime,
            linkedSuggestions := resp.linkedSuggestions, imagePrompt := resp.imagePrompt } }
      else r)
    Store.setActiveNode { s with recipes := recipes2 } node.treeID node.id

/-- RecipeService.SwitchToNode: loads the node, rejects an empty
snapshot, then delegates to UpdateRecipeFromNode. -/
def Store.switchToNode (s : Store) (recipeID nodeID : Nat) : Except StoreErr Store :=
  match s.getNodeByID nodeID with
  | .error e => .error e
  | .ok node =>
    match node.response with
    | none => .error (.invalid "cannot switch to node with no response")
    | some _ => s.updateRecipeFromNode recipeID node

/-- RecipeTreeService.SetActiveNode (service layer): switches the active
flag first, then — only when the node carries a snapshot — copies it onto
the recipe's materialized fields. -/
def Store.treeServiceSetActiveNode (s : Store) (recipeID nodeID : Nat) :
    Except StoreErr Store :=
  match s.getTreeByRecipeID recipeID with
  | .error e => .error e
  | .ok tree =>
    match s.setActiveNode tree.id nodeID with
    | .error e => .error e
    | .ok s2 =>
      match s2.findNodeByID nodeID with
      | none => .error (.notFound "recipe node not found")
      | some node =>
        if node.response.isSome then
          s2.updateRecipeFromNode recipeID node
        else
          .ok s2

/-- A store in which recipe 1 already owns tree 1, used by the C6
counterexample and witness. -/
def c6Store : Store :=
  { recipes := [{ id := 1,
                  recipeDef := { title := "t", ingredients := [], instructions := [],
                                 cookTime := 0, linkedSuggestions := [], imagePrompt := "",
                                 hashtags := [], portions := 0, portionSize := "",
                                 sourceURL := "" },
                  imageURL := "", createdByID := 7, history := some [], treeID := some 1 }]
    trees := [{ id := 1, recipeID := 1, rootNodeID := some 1 }]
    nodes :=
      [{ id := 1, treeID := 1, parentID := none, prompt := "root", response := none,
         summary := "root", type := .chat, branchName := "original", isEphemeral := false,
         createdByID := 7, isActive := true }]
    nextTreeID := 2
    nextNodeID := 2 }

/-- A root-node input for C6. -/
def c6Root : RecipeNode :=
  { id := 0, treeID := 0, parentID := none, prompt := "p", response := none,
    summary := "s", type := .fork, branchName := "original", isEphemeral := false,
    createdByID := 7, isActive := true }

/-- A concrete snapshot definition used across witnesses. -/
def sampleDef : RecipeDef :=
  { title := "Pancakes", ingredients := [], instructions := ["mix", "fry"],
    cookTime := 15, linkedSuggestions := [], imagePrompt := "a photo",
    hashtags := ["breakfast"], portions := 2, portionSize := "plate",
    sourceURL := "" }

/-- A store whose tree has an active node 1 with a snapshot and a node 2
with an empty snapshot, used by C7. -/
def c7Store : Store :=
  { recipes := [{ id := 1, recipeDef := sampleDef, imageURL := "", createdByID := 7,
                  history := some [], treeID := some 1 }]
    trees := [{ id := 1, recipeID := 1, rootNodeID := some 1 }]
    nodes :=
      [{ id := 1, treeID := 1, parentID := none, prompt := "root", response := some sampleDef,
         summary := "root", type := .chat, branchName := "original", isEphemeral := false,
         createdByID := 7, isActive := true },
       { id := 2, treeID := 1, parentID := some 1, prompt := "branch", response := none,
         summary := "", type := .regenChat, branchName := "alt", isEphemeral := false,
         createdByID := 7, isActive := false }]
    nextTreeID := 2
    nextNodeID := 3 }

/-- Node 2 of `c7Store` (empty snapshot, inactive). -/
def c7NodeTwo : RecipeNode :=
  { id := 2, treeID := 1, parentID := some 1, prompt := "branch", response := none,
    summary := "", type := .regenChat, branchName := "alt", isEphemeral := false,
    createdByID := 7, isActive := false }

/-- The store after the repository SetActiveNode(1, 2) on `c7Store`. -/
def c7After : Store :=
  match c7Store.setActiveNode 1 2 with
  | .ok s2 => s2
  | .error _ => c7Store

/-- A concrete store with one tree and two nodes, both flagged active, to
exercise the defensive deactivate-all path. -/
def c1Store : Store :=
  { recipes := []
    trees := [{ id := 1, recipeID := 1, rootNodeID := some 1 }]
    nodes :=
      [{ id := 1, treeID := 1, parentID := none, prompt := "root", response := none,
         summary := "root", type := .chat, branchName := "original", isEphemeral := false,
         createdByID := 7, isActive := true },
       { id := 2, treeID := 1, parentID := some 1, prompt := "child", response := none,
         summary := "child", type := .regenChat, branchName := "original", isEphemeral := false,
         createdByID := 7, isActive := true }]
    nextTreeID := 2
    nextNodeID := 3 }

/-- The node input that C1's witness feeds to AddNodeToTree. -/
def c1NewNode : RecipeNode :=
  { id := 0, treeID := 1, parentID := some 2, prompt := "again", response := none,
    summary := "again", type := .regenChat, branchName := "original", isEphemeral := false,
    createdByID := 7, isActive := false }

/-- ai.Message: one conversation message for the text provider. -/
structure Message where
  role : String
  content : String
deriving Repr, DecidableEq

/-- Stands for Go's json.Marshal of a RecipeDef: a concrete, injective
serialization.  The verified properties only ever compare its output for
equality, never parse it. -/
def marshalRecipeDef (d : RecipeDef) : String :=
  toString (repr d)

/-- The synthetic user message used for a manually entered revision
(recipeRegen.go:198). -/
def simulatedRevisionPrompt : String :=
  "The following response from you is the current revision of the recipe."

/-- The loop body state of historyEntriesToMessages (recipeRegen.go:187):
`length` is the total entry count, `i` the index of the head of the
remaining list, `acc` the messages appended so far. -/
def historyEntriesToMessagesAux (currentDef : RecipeDef) (length : Nat) :
    Nat → List RecipeHistoryEntry → List Message → List Message
  | _, [], acc => acc
  | i, entry :: rest, acc =>
    match entry.type with
    | RecipeType.manualEntry =>
      if i == length - 1 then
        historyEntriesToMessagesAux currentDef length (i + 1) rest
          (acc ++ [{ role := "user", content := simulatedRevisionPrompt },
                   { role := "assistant", content := marshalRecipeDef currentDef }])
      else
        historyEntriesToMessagesAux currentDef length (i + 1) rest acc
    | _ =>
      historyEntriesToMessagesAux currentDef length (i + 1) rest
        (acc ++ [{ role := "user", content := entry.prompt },
                 { role := "assistant",
                   content := if i == length - 1 then marshalRecipeDef currentDef
                              else entry.summary }])

/-- historyEntriesToMessages (recipeRegen.go:187): converts history
entries into conversation context for regen/fork flows. -/
def historyEntriesToMessages (entries : List RecipeHistoryEntry) (currentDef : RecipeDef) :
    List Message :=
  historyEntriesToMessagesAux currentDef entries.length 0 entries []

/-- The messages one history entry contributes, as a function of whether
it is the most recent entry: the compositional reading of the loop body
of historyEntriesToMessages. -/
def entryMessages (currentDef : RecipeDef) (isLast : Bool) (entry : RecipeHistoryEntry) :
    List Message :=
  match entry.type with
  | RecipeType.manualEntry =>
    if isLast then
      [{ role := "user", content := simulatedRevisionPrompt },
       { role := "assistant", content := marshalRecipeDef currentDef }]
    else []
  | _ =>
    [{ role := "user", content := entry.prompt },
     { role := "assistant",
       content := if isLast then marshalRecipeDef currentDef else entry.summary }]

/-- Checks that a message list is a sequence of user/assistant pairs in
this order. -/
def isUserAssistantChain : List Message → Bool
  | [] => true
  | u :: a :: rest => u.role == "user" && a.role == "assistant" && isUserAssistantChain rest
  | _ => false

/-- ai.RecipeResult: the structured output of a text-generation call. -/
structure RecipeResult where
  title : String
  ingredients : List Ingredient
  instructions : List String
  cookTime : Nat
  imagePrompt : String
  hashtags : List String
  linkedSuggestions : List String
  summary : String
  portions : Nat
  portionSize : String
  sourceURL : String
deriving Repr, DecidableEq

/-- service.recipeResultToRecipeDef (field-by-field copy). -/
def recipeResultToRecipeDef (r : RecipeResult) : RecipeDef :=
  { title := r.title, ingredients := r.ingredients, instructions := r.instructions,
    cookTime := r.cookTime, imagePrompt := r.imagePrompt, hashtags := r.hashtags,
    linkedSuggestions := r.linkedSuggestions, portions := r.portions,
    portionSize := r.portionSize, sourceURL := r.sourceURL }

/-- service.validateRecipeCoreFields.  The Go version also rejects nil
(never-allocated) ingredient and instruction slices, a state that has no
counterpart for Lean lists; the title and image-prompt emptiness checks
are modelled as written. -/
def validateRecipeCoreFields (r : Recipe) : Except StoreErr Unit :=
  if r.recipeDef.title == "" || r.recipeDef.imagePrompt == "" then
    .error (.invalid "missing required fields in Recipe")
  else .ok ()

/-- service.populateRecipeCoreFields: updates the in-memory recipe from
the AI result, appends the history entry in memory, validates. -/
def populateRecipeCoreFields (r : Recipe) (result : RecipeResult)
    (entry : RecipeHistoryEntry) : Except StoreErr Recipe :=
  let r2 := { r with recipeDef := recipeResultToRecipeDef result }
  match r2.history with
  | none => .error (.invalid "recipe history is nil")
  | some entries =>
    let r3 := { r2 with history := some (entries ++ [entry]) }
    match validateRecipeCoreFields r3 with
    | .ok _ => .ok r3
    | .error e => .error e

/-- RecipeRepository.UpdateRecipeDef: one transaction that persists the
in-memory recipe's core fields (Title, Ingredients, Instructions,
CookTime, LinkedSuggestions, ImagePrompt) onto the stored row and
appends the new history entry; a recipe with no history is rejected
("recipe history ID not set"). -/
def Store.updateRecipeDef (s : Store) (recipe : Recipe) (entry : RecipeHistoryEntry) :
    Except StoreErr Store :=
  let recipes2 := s.recipes.map (fun r =>
    if r.id == recipe.id then
      { r with recipeDef := { r.recipeDef with
          title := recipe.recipeDef.title, ingredients := recipe.recipeDef.ingredients,
          instructions := recipe.recipeDef.instructions,
          cookTime := recipe.recipeDef.cookTime,
          linkedSuggestions := recipe.recipeDef.linkedSuggestions,
          imagePrompt := recipe.recipeDef.imagePrompt } }
    else r)
  match recipe.history with
  | none => .error (.invalid "recipe history ID not set in recipe")
  | some _ =>
    let recipes3 := recipes2.map (fun r =>
      if r.id == recipe.id then
        { r with history := some ((r.history.getD []) ++ [entry]) }
      else r)
    .ok { s with recipes := recipes3 }

/-- RecipeRepository.DeleteRecipe composed with the service DeleteRecipe:
removes the recipe row (the S3 image-blob delete has no representation in
the store). -/
def Store.deleteRecipe (s : Store) (recipeID : Nat) : Store :=
  { s with recipes := s.recipes.filter (fun r => !(r.id == recipeID)) }

/-- One commit step of the Finish orchestration, for tracing order. -/
inductive CommitStep where
  | updateFields
  | appendHistory
  | associateHashtags
  | treeWrite
deriving Repr, DecidableEq

/-- The history entry both regen and fork flows build for the committed
turn (type RecipeTypeChat in both sources). -/
def chatHistoryEntry (userPrompt : String) (result : RecipeResult) : RecipeHistoryEntry :=
  { prompt := userPrompt, response := some (recipeResultToRecipeDef result),
    summary := result.summary, type := .chat }

/-- FinishRegenerateRecipe (recipeRegen.go:38), sequentialized.
`textResult` is the outcome of the text-generation collaborator; an error
also stands for the 5-minute deadline expiring during text generation,
which the enclosing select treats identically (both call DeleteRecipe).
The image sub-task only ever touches the image URL of the committed
recipe and is omitted.  Tag-table writes live outside the store; the
AssociateTagsWithRecipe call is recorded in the returned trace, whose
entries are the commit steps in execution order. -/
def finishRegenerateRecipe (s : Store) (recipe : Recipe) (userPrompt : String)
    (textResult : Except String RecipeResult) : Store × List CommitStep :=
  match textResult with
  | .error _ => (s.deleteRecipe recipe.id, [])
  | .ok result =>
    let recipeDef := recipeResultToRecipeDef result
    let historyEntry := chatHistoryEntry userPrompt result
    match populateRecipeCoreFields recipe result historyEntry with
    | .error _ => (s.deleteRecipe recipe.id, [])
    | .ok recipe2 =>
      match s.updateRecipeDef recipe2 historyEntry with
      | .error _ => (s.deleteRecipe recipe.id, [])
      | .ok s1 =>
        let trace := [CommitStep.updateFields, CommitStep.appendHistory,
                      CommitStep.associateHashtags]
        match s1.getTreeByRecipeID recipe.id with
        | .error _ => (s1, trace)
        | .ok tree =>
          match s1.getActiveNode tree.id with
          | .error _ => (s1, trace)
          | .ok activeNode =>
            let newNode : RecipeNode :=
              { id := 0, treeID := tree.id, parentID := some activeNode.id,
                prompt := userPrompt, response := some recipeDef,
                summary := result.summary, type := .regenChat,
                branchName := activeNode.branchName, isEphemeral := false,
                createdByID := recipe.createdByID, isActive := false }
            ((s1.addNodeToTree newNode true).2, trace ++ [CommitStep.treeWrite])

/-- FinishGenerateRecipeWithFork (recipeFork.go:50), sequentialized the
same way: on text success the commit runs update + history, then tag
association, then CreateRecipeTree with the fork result as root node
(failure of the tree write is logged, non-fatal). -/
def finishGenerateRecipeWithFork (s : Store) (recipe : Recipe) (userPrompt : String)
    (textResult : Except String RecipeResult) : Store × List CommitStep :=
  match textResult with
  | .error _ => (s.deleteRecipe recipe.id, [])
  | .ok result =>
    let recipeDef := recipeResultToRecipeDef result
    let historyEntry := chatHistoryEntry userPrompt result
    match populateRecipeCoreFields recipe result historyEntry with
    | .error _ => (s.deleteRecipe recipe.id, [])
    | .ok recipe2 =>
      match s.updateRecipeDef recipe2 historyEntry with
      | .error _ => (s.deleteRecipe recipe.id, [])
      | .ok s1 =>
        let rootNode : RecipeNode :=
          { id := 0, treeID := 0, parentID := none, prompt := userPrompt,
            response := some recipeDef, summary := result.summary, type := .fork,
            branchName := "original", isEphemeral := false,
            createdByID := recipe.createdByID, isActive := true }
        let s2 :=
          match Store.createRecipeTree true s1 recipe.id rootNode with
          | .ok (_, s3) => s3
          | .error _ => s1
        (s2, [CommitStep.updateFields, CommitStep.appendHistory,
              CommitStep.associateHashtags, CommitStep.treeWrite])

/-- A concrete text-generation result used by counterexamples and
witnesses. -/
def sampleResult : RecipeResult :=
  { title := "Pancakes", ingredients := [], instructions := ["mix", "fry"], cookTime := 15,
    imagePrompt := "a photo", hashtags := ["breakfast"], linkedSuggestions := [],
    summary := "made pancakes", portions := 2, portionSize := "plate", sourceURL := "" }

/-- The in-memory recipe row used by the C2/C3 scenarios (it matches the
row stored in `c7Store`). -/
def c2Recipe : Recipe :=
  { id := 1, recipeDef := sampleDef, imageURL := "", createdByID := 7,
    history := some [], treeID := some 1 }

/-- A manually entered history turn for the C4 scenario. -/
def c4ManualEntry : RecipeHistoryEntry :=
  { prompt := "typed by hand", response := some sampleDef, summary := "manual fix",
    type := .manualEntry }

/-- A chat history turn for the C4 scenario. -/
def c4ChatEntry : RecipeHistoryEntry :=
  { prompt := "make it vegan", response := some sampleDef, summary := "made vegan",
    type := .chat }

/-- The loop of RecipeRepository.GetNodeAncestors (recipe_tree.go:114):
look the current id up, prepend the node, stop at an empty parent
reference, otherwise continue from the parent.  The Go loop carries no
bound; `fuel` makes it structurally recursive, and exhausting the fuel
stands for the non-termination that only a parent cycle could cause. -/
def Store.getNodeAncestorsLoop (s : Store) :
    Nat → Nat → List RecipeNode → Except StoreErr (List RecipeNode)
  | 0, _, _ => .error (.storage "ancestor walk did not terminate")
  | fuel + 1, currentID, ancestors =>
    match s.findNodeByID currentID with
    | none => .error (.notFound "record not found")
    | some node =>
      match node.parentID with
      | none => .ok (node :: ancestors)
      | some p => s.getNodeAncestorsLoop fuel p (node :: ancestors)

/-- RecipeRepository.GetNodeAncestors: walk from a node up to the root,
returning the chain in root-first order. -/
def Store.getNodeAncestors (s : Store) (nodeID : Nat) (fuel : Nat) :
    Except StoreErr (List RecipeNode) :=
  s.getNodeAncestorsLoop fuel nodeID []

/-- Well-formed parent references: every parent reference resolves to an
existing node of the same tree with a strictly smaller id.  The database
assigns increasing primary keys and a parent row must exist before a
child can reference it, which is exactly how the source rules out parent
cycles. -/
def wellFormedParentsB (nodes : List RecipeNode) : Bool :=
  nodes.all (fun n =>
    match n.parentID with
    | none => true
    | some p => decide (p < n.id) && nodes.any (fun m => m.id == p && m.treeID == n.treeID))

/-- Every tree's recorded root-node reference points at each parent-less
node of that tree (with one root per tree this pins the recorded root
down). -/
def rootsRecordedB (s : Store) : Bool :=
  s.trees.all (fun t => s.nodes.all (fun n =>
    !(n.treeID == t.id) || n.parentID.isSome || t.rootNodeID == some n.id))

/-- Adjacent elements of the list are parent-linked within one tree. -/
def isParentChain : List RecipeNode → Bool
  | [] => true
  | [_] => true
  | a :: b :: rest =>
    b.parentID == some a.id && b.treeID == a.treeID && isParentChain (b :: rest)

/-- A first legacy-history turn for the C8 witness. -/
def c8Entry1 : RecipeHistoryEntry :=
  { prompt := "first", response := some sampleDef, summary := "s1", type := .chat }

/-- A second legacy-history turn for the C8 witness. -/
def c8Entry2 : RecipeHistoryEntry :=
  { prompt := "second", response := some sampleDef, summary := "s2", type := .regenChat }

/-- The recipe migrated in the C8 witness. -/
def c8Recipe : Recipe :=
  { id := 5, recipeDef := sampleDef, imageURL := "", createdByID := 9,
    history := some [c8Entry1, c8Entry2], treeID := none }

/-- Another migration candidate, made to fail in the C8 witness to
exercise per-recipe failure isolation. -/
def c8OtherRecipe : Recipe :=
  { id := 6, recipeDef := sampleDef, imageURL := "", createdByID := 9,
    history := some [c8Entry1], treeID := none }

/-- The C8 witness store: two candidates, no trees yet. -/
def c8Store : Store :=
  { recipes := [c8OtherRecipe, c8Recipe], trees := [], nodes := [],
    nextTreeID := 1, nextNodeID := 1 }

/-- Node 2 of `c1Store` (child of the root), the C9 witness target. -/
def c9Node : RecipeNode :=
  { id := 2, treeID := 1, parentID := some 1, prompt := "child", response := none,
    summary := "child", type := .regenChat, branchName := "original", isEphemeral := false,
    createdByID := 7, isActive := true }

/-- The tree row of `c1Store`. -/
def c9Tree : RecipeTree := { id := 1, recipeID := 1, rootNodeID := some 1 }

/-- A node whose parent reference is dangling, for the C9 error case. -/
def c9DanglingNode : RecipeNode :=
  { id := 3, treeID := 1, parentID := some 2, prompt := "orphan", response := none,
    summary := "orphan", type := .chat, branchName := "original", isEphemeral := false,
    createdByID := 7, isActive := true }

/-- A store containing only `c9DanglingNode`, whose parent id 2 resolves
to no row. -/
def c9DanglingStore : Store :=
  { recipes := []
    trees := [{ id := 1, recipeID := 1, rootNodeID := some 1 }]
    nodes := [c9DanglingNode]
    nextTreeID := 2
    nextNodeID := 4 }

/-- service NodeResponse: the nested per-node response object returned by
GetTree (created_at is not modelled; the order of the store's node table
stands for creation order throughout). -/
inductive NodeResp where
  | mk (id : Nat) (parentID : Option Nat) (branchName : String) (summary : String)
      (type : RecipeType) (isActive : Bool) (isEphemeral : Bool) (createdByID : Nat)
      (children : List NodeResp)

/-- service rebuildNode (recursive nested assembly): children are the
nodes whose parent reference is this node, in table order, each rebuilt
recursively.  The Go recursion carries no bound (a parent cycle would
recurse forever); `fuel` bounds it, and GetTree supplies the node count,
which suffices for every acyclic store. -/
def rebuildNode (allNodes : List RecipeNode) : Nat → RecipeNode → NodeResp
  | 0, n =>
    NodeResp.mk n.id n.parentID n.branchName n.summary n.type n.isActive n.isEphemeral
      n.createdByID []
  | fuel + 1, n =>
    NodeResp.mk n.id n.parentID n.branchName n.summary n.type n.isActive n.isEphemeral
      n.createdByID
      ((allNodes.filter (fun c => c.parentID == some n.id)).map (rebuildNode allNodes fuel))

/-- service FullTreeResponse. -/
structure FullTreeResp where
  treeID : Nat
  recipeID : Nat
  rootNodeID : Option Nat
  rootNode : Option NodeResp

/-- RecipeTreeService.GetTree: loads the tree reference by recipe id,
re-loads the tree with its nodes (GetTreeWithNodes, ordered by creation),
and assembles the nested structure rooted at the node whose id equals the
recorded root reference; a missing root reference or root row yields a
response with no root node.  The source's first linking pass is fully
superseded by rebuildNode, which resets and rebuilds every children list
from the flat node list, so only that recursive assembly is modelled. -/
def Store.getTree (s : Store) (recipeID : Nat) : Except StoreErr FullTreeResp :=
  match s.getTreeByRecipeID recipeID with
  | .error e => .error e
  | .ok treeRef =>
    match s.trees.find? (fun t => t.id == treeRef.id) with
    | none => .error (.notFound "record not found")
    | some tree =>
      let nodes := s.nodes.filter (fun n => n.treeID == tree.id)
      let rootNode :=
        match tree.rootNodeID with
        | none => none
        | some rid =>
          match nodes.find? (fun n => n.id == rid) with
          | none => none
          | some rn => some (rebuildNode nodes nodes.length rn)
      .ok { treeID := tree.id, recipeID := tree.recipeID,
            rootNodeID := tree.rootNodeID, rootNode := rootNode }

/-- The node input used by the C5 chain scenario: fixed content, varying
parent. -/
def chainNodeInput (treeID : Nat) (parentID : Option Nat) : RecipeNode :=
  { id := 0, treeID := treeID, parentID := parentID, prompt := "p",
    response := some sampleDef, summary := "s", type := .chat, branchName := "original",
    isEphemeral := false, createdByID := 7, isActive := false }

/-- A fresh store holding one recipe and no tree, the starting point of
the C5 scenario. -/
def chainBaseStore : Store :=
  { recipes := [{ id := 1, recipeDef := sampleDef, imageURL := "", createdByID := 7,
                  history := some [], treeID := none }]
    trees := []
    nodes := []
    nextTreeID := 1
    nextNodeID := 1 }

/-- The store produced by one CreateRecipeTree call followed by N
AddNodeToTree(setActive := true) calls, each new node a child of the
previously added one. -/
def buildChain : Nat → Store
  | 0 =>
    match Store.createRecipeTree true chainBaseStore 1 (chainNodeInput 0 none) with
    | .ok (_, s) => s
    | .error _ => chainBaseStore
  | n + 1 =>
    ((buildChain n).addNodeToTree (chainNodeInput 1 (some (n + 1))) true).2

/-- The expected i-th node (1-based) of a chain of `cnt` nodes. -/
def chainNode (i cnt : Nat) : RecipeNode :=
  { id := i, treeID := 1, parentID := if i == 1 then none else some (i - 1),
    prompt := "p", response := some sampleDef, summary := "s", type := .chat,
    branchName := "original", isEphemeral := false, createdByID := 7,
    isActive := i == cnt }

/-- The expected nodes table of a chain of `cnt` nodes. -/
def chainNodes (cnt : Nat) : List RecipeNode :=
  (List.range cnt).map (fun k => chainNode (k + 1) cnt)

/-- The expected nested response from node `i` down, with `r` descendants
remaining, in a chain of `cnt` nodes. -/
def chainRespDown : Nat → Nat → Nat → NodeResp
  | 0, i, cnt =>
    NodeResp.mk i (if i == 1 then none else some (i - 1)) "original" "s" .chat
      (i == cnt) false 7 []
  | r + 1, i, cnt =>
    NodeResp.mk i (if i == 1 then none else some (i - 1)) "original" "s" .chat
      (i == cnt) false 7 [chainRespDown r (i + 1) cnt]

/-- The expected nested response rooted at node `i` of a chain of `cnt`
nodes. -/
def chainResp (i cnt : Nat) : NodeResp := chainRespDown (cnt - i) i cnt

/-- The expected full store of the C5 scenario after N additions. -/
def chainStore (n : Nat) : Store :=
  { recipes := [{ id := 1, recipeDef := sampleDef, imageURL := "",
                  createdByID := 7, history := some [], treeID := some 1 }]
    trees := [{ id := 1, recipeID := 1, rootNodeID := some 1 }]
    nodes := chainNodes (n + 1)
    nextTreeID := 2
    nextNodeID := n + 2 }

/-- Checks that the nested node is a linear chain carrying exactly the
ids i, i+1, ..., cnt in order (hence depth cnt - i + 1), in which the
node `cnt` is the single deepest leaf and the only active node. -/
def isLinearChainB : NodeResp → Nat → Nat → Bool
  | NodeResp.mk j _ _ _ _ ia _ _ [], i, cnt => j == i && i == cnt && ia
  | NodeResp.mk j _ _ _ _ ia _ _ [c], i, cnt =>
    j == i && !(i == cnt) && !ia && isLinearChainB c (i + 1) cnt
  | _, _, _ => false

/-- The candidate filter of MigrateRecipeHistoryToTree
(001_recipe_tree.go:19): recipes with a history reference and a NULL/0
tree reference. -/
def migrationCandidate (r : Recipe) : Bool :=
  r.history.isSome &&
    (match r.treeID with
     | none => true
     | some t => t == 0)

/-- The node-creation loop of migrateRecipeToTree: each entry becomes a
node whose parent is the previously created node (`parent` threading
mirrors prevNodeID), with ids assigned sequentially from `nid`, branch
label "original", not yet active. -/
def migChainNodes (treeID cb : Nat) : Nat → Option Nat → List RecipeHistoryEntry →
    List RecipeNode
  | _, _, [] => []
  | nid, parent, e :: es =>
    { id := nid, treeID := treeID, parentID := parent, prompt := e.prompt,
      response := e.response, summary := e.summary, type := e.type,
      branchName := "original", isEphemeral := false, createdByID := cb,
      isActive := false } :: migChainNodes treeID cb (nid + 1) (some nid) es

/-- migrateRecipeToTree (001_recipe_tree.go:44): loads the recipe's
history (missing history is a lookup error), does nothing for an empty
history, otherwise one transaction creates the tree, the chain of nodes
(the first node becoming the recorded root), marks the last node active
(an UPDATE keyed on the node id over the whole table) and links the tree
to the recipe.  `failSet` injects per-recipe storage failures inside the
transaction, which rolls back. -/
def migrateRecipeToTree (failSet : List Nat) (s : Store) (r : Recipe) :
    Except StoreErr Store :=
  match r.history with
  | none => .error (.notFound "record not found")
  | some entries =>
    if entries.isEmpty then .ok s
    else if r.id ∈ failSet then .error (.storage "injected storage failure")
    else
      let treeID := s.nextTreeID
      let startID := s.nextNodeID
      let newNodes := migChainNodes treeID r.createdByID startID none entries
      let lastID := startID + entries.length - 1
      .ok { recipes := s.recipes.map (fun x =>
              if x.id == r.id then { x with treeID := some treeID } else x),
            trees := s.trees ++ [{ id := treeID, recipeID := r.id,
                                   rootNodeID := some startID }],
            nodes := (s.nodes ++ newNodes).map (fun n =>
              if n.id == lastID then { n with isActive := true } else n),
            nextTreeID := treeID + 1,
            nextNodeID := startID + entries.length }

/-- One iteration of the migration pass: a per-recipe failure is logged
and skipped, leaving the store as the rolled-back transaction left it. -/
def migrationStep (failSet : List Nat) (acc : Store) (r : Recipe) : Store :=
  match migrateRecipeToTree failSet acc r with
  | .ok s2 => s2
  | .error _ => acc

/-- MigrateRecipeHistoryToTree (001_recipe_tree.go:16): selects the
candidate snapshot once, then migrates each recipe in turn, skipping
per-recipe failures. -/
def migrateRecipeHistoryToTree (failSet : List Nat) (s : Store) : Store :=
  (s.recipes.filter migrationCandidate).foldl (migrationStep failSet) s

/-- Checks that the node list mirrors the history entries as a straight
chain: pointwise prompt/response/summary/type equality, branch label
"original", parent reference equal to the id of the previous node
(`prev`, none for the first), and the active flag on exactly the last
node. -/
def chainMirrorsB : List RecipeNode → List RecipeHistoryEntry → Option Nat → Bool
  | [], [], _ => true
  | n :: ns, e :: es, prev =>
    n.parentID == prev && n.prompt == e.prompt && n.summary == e.summary
      && n.type == e.type && n.response == e.response && n.branchName == "original"
      && (if es.isEmpty then n.isActive else !n.isActive)
      && chainMirrorsB ns es (some n.id)
  | _, _, _ => false

/-- Checks the migrated shape for recipe `rid`: exactly one tree row for
the recipe, whose nodes (in table order) mirror `entries` as a straight
chain with the last node active, and whose recorded root is the chain's
first node. -/
def migratedShapeB (s : Store) (rid : Nat) (entries : List RecipeHistoryEntry) : Bool :=
  match s.trees.filter (fun t => t.recipeID == rid) with
  | [t] =>
    (match (s.nodes.filter (fun n => n.treeID == t.id)).head? with
     | some h => t.rootNodeID == some h.id
     | none => false)
    && chainMirrorsB (s.nodes.filter (fun n => n.treeID == t.id)) entries none
  | _ => false

/-- The migrated-state invariant for recipe `r` with tree id `T` rooted
at node id `K`: one tree row, the activated chain as the tree's nodes,
the recipe row linked to the tree, and the freshness bounds that keep
later migration steps away from this tree. -/
def MigratedForTK (r : Recipe) (entries : List RecipeHistoryEntry) (T K : Nat)
    (s1 : Store) : Prop :=
  1 ≤ T
  ∧ s1.trees.filter (fun t => t.recipeID == r.id)
      = [{ id := T, recipeID := r.id, rootNodeID := some K }]
  ∧ s1.nodes.filter (fun n => n.treeID == T)
      = (migChainNodes T r.createdByID K none entries).map (fun n =>
          if n.id == K + entries.length - 1 then { n with isActive := true } else n)
  ∧ s1.recipes.filter (fun x => x.id == r.id) = [{ r with treeID := some T }]
  ∧ (∀ t ∈ s1.trees, t.id < s1.nextTreeID)
  ∧ (∀ n ∈ s1.nodes, n.id < s1.nextNodeID)
  ∧ (∀ n ∈ s1.nodes, n.treeID < s1.nextTreeID)
  ∧ T < s1.nextTreeID

/-- The pre-migration invariant for recipe `r`: no tree row for it yet,
its recipe row untouched, and the freshness bounds. -/
def PreMigration (r : Recipe) (s1 : Store) : Prop :=
  s1.trees.filter (fun t => t.recipeID == r.id) = []
  ∧ s1.recipes.filter (fun x => x.id == r.id) = [r]
  ∧ (∀ t ∈ s1.trees, t.id < s1.nextTreeID)
  ∧ (∀ n ∈ s1.nodes, n.id < s1.nextNodeID)
  ∧ (∀ n ∈ s1.nodes, n.treeID < s1.nextTreeID)
  ∧ 1 ≤ s1.nextTreeID

/-- After deactivate-all-but-`i` followed by activate-`i`, a list whose
node ids are all below `i` contributes nothing to the active nodes of
tree `t`. -/
theorem deact_then_act_filter_nil (l : List RecipeNode) (t i : Nat)
    (h : ∀ n ∈ l, n.id < i) :
    ((l.map (fun n => if n.treeID == t && n.id != i then { n with isActive := false } else n)).map
      (fun n => if n.id == i then { n with isActive := true } else n)).filter
      (fun n => n.treeID == t && n.isActive) = [] := by
  rw [List.map_map, List.map_filter, List.map_eq_nil]
  rw [List.filter_eq_nil]
  intro n hn
  have hlt := h n hn
  have hne : (n.id == i) = false := by simp; omega
  have hbne : (n.id != i) = true := by simp [bne, hne]
  by_cases ht : n.treeID = t <;> simp [Function.comp, ht, hne, hbne, beq_iff_eq]

/-- Deactivate-all-in-tree then activate-by-id, observed through the
active-nodes filter, keeps exactly the nodes that have the target id and
belong to the tree, now activated. -/
theorem act_filter_eq (l : List RecipeNode) (t i : Nat) :
    ((l.map (fun n => if n.treeID == t then { n with isActive := false } else n)).map
      (fun n => if n.id == i then { n with isActive := true } else n)).filter
      (fun n => n.treeID == t && n.isActive)
    = (l.filter (fun n => n.id == i && n.treeID == t)).map
        (fun n => { n with isActive := true }) := by
  rw [List.map_map, List.map_filter]
  have hfc : l.filter ((fun n => n.treeID == t && n.isActive) ∘
        ((fun n => if n.id == i then { n with isActive := true } else n) ∘
          (fun n => if n.treeID == t then { n with isActive := false } else n)))
      = l.filter (fun n => n.id == i && n.treeID == t) := by
    apply List.filter_congr'
    intro n _
    by_cases hi : n.id = i <;> by_cases ht : n.treeID = t
    · simp [Function.comp, hi, ht]
    · have h1 : (n.treeID == t) = false := beq_eq_false_iff_ne.mpr ht
      simp [Function.comp, hi, h1]
    · have h2 : (n.id == i) = false := beq_eq_false_iff_ne.mpr hi
      simp [Function.comp, ht, h2]
    · have h1 : (n.treeID == t) = false := beq_eq_false_iff_ne.mpr ht
      have h2 : (n.id == i) = false := beq_eq_false_iff_ne.mpr hi
      simp [Function.comp, h1, h2]
  rw [hfc]
  apply List.map_eq_map_iff.mpr
  intro n hn
  have hq := (List.mem_filter.mp hn).2
  have hi : n.id = i := by
    have := (Bool.and_eq_true _ _).mp hq
    exact eq_of_beq this.1
  have ht : n.treeID = t := by
    have := (Bool.and_eq_true _ _).mp hq
    exact eq_of_beq this.2
  simp [Function.comp, hi, ht]

/-- In a table with pairwise distinct node ids, a filter whose predicate
pins the id down to that of a member matching the predicate keeps exactly
that member. -/
theorem filter_by_id_nodup (l : List RecipeNode) (n₀ : RecipeNode) (q : RecipeNode → Bool)
    (hn : (l.map RecipeNode.id).Nodup) (hmem : n₀ ∈ l)
    (hq : q n₀ = true) (hid : ∀ n, q n = true → n.id = n₀.id) :
    l.filter q = [n₀] := by
  induction l with
  | nil => cases hmem
  | cons a l ih =>
    simp only [List.map_cons, List.nodup_cons] at hn
    rcases List.mem_cons.mp hmem with rfl | hmem2
    · rw [List.filter_cons_of_pos hq]
      have hrest : l.filter q = [] := by
        apply List.filter_eq_nil_iff.mpr
        intro n hn2 hqn
        exact hn.1 (by rw [← hid n hqn]; exact List.mem_map_of_mem RecipeNode.id hn2)
      rw [hrest]
    · have hqa : q a = false := by
        by_contra hcon
        have haq : q a = true := by
          cases hqa2 : q a with
          | false => exact absurd hqa2 hcon
          | true => rfl
        have : n₀.id ∈ l.map RecipeNode.id := List.mem_map_of_mem RecipeNode.id hmem2
        rw [← hid a haq] at this
        exact hn.1 this
      rw [List.filter_cons_of_neg (by rw [hqa]; simp)]
      exact ih hn.2 hmem2

/-- C1: after a completed AddNodeToTree(node, setActive=true) the unique
active node of the tree is the created node, and after a successful
SetActiveNode(treeId, nodeId) the unique active node of the tree is the
target node — regardless of how many nodes were active before.  The
freshness/distinctness hypotheses model the primary-key discipline of the
database. -/
theorem c1_exactly_one_active :
    (∀ (s : Store) (node : RecipeNode),
      (∀ n ∈ s.nodes, n.id < s.nextNodeID) →
      (((s.addNodeToTree node true).2).activeNodesInTree node.treeID).map RecipeNode.id
        = [(s.addNodeToTree node true).1]) ∧
    (∀ (s : Store) (treeID nodeID : Nat),
      (s.nodes.map RecipeNode.id).Nodup →
      (s.nodes.any (fun n => n.id == nodeID && n.treeID == treeID)) = true →
      (s.setActiveNode treeID nodeID).map
          (fun s2 => (s2.activeNodesInTree treeID).map RecipeNode.id)
        = .ok [nodeID]) := by
  constructor
  · intro s node hfresh
    have hstep : s.addNodeToTree node true
        = (s.nextNodeID,
           { s with
              nodes := ((s.nodes ++ [{ node with id := s.nextNodeID }]).map
                  (fun (n : RecipeNode) => if n.treeID == node.treeID && n.id != s.nextNodeID then
                      { n with isActive := false } else n)).map
                  (fun (n : RecipeNode) => if n.id == s.nextNodeID then { n with isActive := true } else n),
              nextNodeID := s.nextNodeID + 1 }) := rfl
    rw [hstep]
    simp only [Store.activeNodesInTree]
    rw [List.map_append, List.map_append, List.filter_append]
    rw [deact_then_act_filter_nil s.nodes node.treeID s.nextNodeID hfresh]
    simp [bne]
  · intro s treeID nodeID hnodup hany
    have hfind : ∃ n₀, s.nodes.find? (fun n => n.id == nodeID && n.treeID == treeID) = some n₀ := by
      have : (s.nodes.find? (fun n => n.id == nodeID && n.treeID == treeID)).isSome := by
        rw [List.find?_isSome]
        rcases List.any_eq_true.mp hany with ⟨n, hn, hp⟩
        exact ⟨n, hn, hp⟩
      exact Option.isSome_iff_exists.mp this
    rcases hfind with ⟨n₀, hfind⟩
    have hmem := List.mem_of_find?_eq_some hfind
    have hq := List.find?_some hfind
    have hqid : n₀.id = nodeID := by
      have := (Bool.and_eq_true _ _).mp hq
      exact eq_of_beq this.1
    simp only [Store.setActiveNode, hfind, Except.map, Store.activeNodesInTree]
    rw [act_filter_eq]
    rw [filter_by_id_nodup s.nodes n₀ _ hnodup hmem hq
      (fun n hn => by
        have := (Bool.and_eq_true _ _).mp hn
        rw [eq_of_beq this.1, hqid])]
    simp [hqid]

/-- A successful SetActiveNode transaction only touches the nodes table. -/
theorem setActiveNode_recipes_eq (s : Store) (treeID nodeID : Nat) (s2 : Store)
    (h : s.setActiveNode treeID nodeID = .ok s2) : s2.recipes = s.recipes := by
  unfold Store.setActiveNode at h
  cases hfind : s.nodes.find? (fun n => n.id == nodeID && n.treeID == treeID) with
  | none => rw [hfind] at h; cases h
  | some n₀ => rw [hfind] at h; cases h; rfl

/-- C6 counterexample: with the database unique index absent, the Edit
Tree Store layer happily creates a second tree for a recipe that already
has one — so the 1:1 relationship is NOT enforced by a check in the layer
itself, contrary to the claim.  CreateRecipeTree's body contains no such
check. -/
theorem c6_counterexample :
    (Store.createRecipeTree false c6Store 1 c6Root).isOk = true
    ∧ ((Store.runCreateRecipeTree false c6Store 1 c6Root).trees.filter
        (fun t => t.recipeID == 1)).length = 2 := ⟨rfl, rfl⟩

/-- C6 amended: CreateRecipeTree fails with a storage error whenever the
recipe already has a tree, but only because the INSERT violates the
database unique index on trees.recipe_id (not because of any check in the
store layer); on such a failure the rolled-back transaction persists no
new Tree or Node row. -/
theorem c6_one_tree_per_recipe :
    ∀ (s : Store) (recipeID : Nat) (rootNode : RecipeNode),
      (s.trees.any (fun t => t.recipeID == recipeID)) = true →
      Store.createRecipeTree true s recipeID rootNode
          = .error (.storage "UNIQUE constraint failed: trees.recipe_id")
        ∧ (s.runCreateRecipeTree true recipeID rootNode).trees = s.trees
        ∧ (s.runCreateRecipeTree true recipeID rootNode).nodes = s.nodes := by
  intro s recipeID rootNode hdup
  have herr : Store.createRecipeTree true s recipeID rootNode
      = .error (.storage "UNIQUE constraint failed: trees.recipe_id") := by
    unfold Store.createRecipeTree
    rw [Bool.true_and, hdup]
    rfl
  refine ⟨herr, ?_, ?_⟩ <;> simp [Store.runCreateRecipeTree, herr]

/-- Witness for C6 at the concrete store. -/
theorem c6_one_tree_per_recipe_witness :
    Store.createRecipeTree true c6Store 1 c6Root
        = .error (.storage "UNIQUE constraint failed: trees.recipe_id")
      ∧ (c6Store.runCreateRecipeTree true 1 c6Root).trees = c6Store.trees
      ∧ (c6Store.runCreateRecipeTree true 1 c6Root).nodes = c6Store.nodes :=
  c6_one_tree_per_recipe c6Store 1 c6Root (by decide)

/-- C7 counterexample: the tree-service SetActiveNode does NOT fail on a
node with an empty snapshot — it succeeds and switches the active flag to
that node, contradicting the claim that every active-switching operation
fails there. -/
theorem c7_counterexample :
    (c7Store.treeServiceSetActiveNode 1 2).isOk = true
    ∧ (c7After.activeNodesInTree 1).map RecipeNode.id = [2] := ⟨rfl, rfl⟩

/-- C7 amended: RecipeService.SwitchToNode and the repository's
UpdateRecipeFromNode reject a node with an empty snapshot up front (the
rolled-back transaction leaves the store unchanged), while the
tree-service SetActiveNode succeeds on such a node: it switches the
active flags and merely skips the materialized-field update, so the
recipe rows are untouched. -/
theorem c7_empty_snapshot :
    (∀ (s : Store) (recipeID nodeID : Nat) (node : RecipeNode),
      s.findNodeByID nodeID = some node →
      node.response = none →
      s.switchToNode recipeID nodeID
        = .error (.invalid "cannot switch to node with no response")) ∧
    (∀ (s : Store) (recipeID : Nat) (node : RecipeNode),
      node.response = none →
      s.updateRecipeFromNode recipeID node = .error (.invalid "node response is nil")) ∧
    (∀ (s : Store) (recipeID nodeID : Nat) (tree : RecipeTree) (s2 : Store) (node : RecipeNode),
      s.getTreeByRecipeID recipeID = .ok tree →
      s.setActiveNode tree.id nodeID = .ok s2 →
      s2.findNodeByID nodeID = some node →
      node.response = none →
      s.treeServiceSetActiveNode recipeID nodeID = .ok s2 ∧ s2.recipes = s.recipes) := by
  refine ⟨?_, ?_, ?_⟩
  · intro s recipeID nodeID node hfind hresp
    unfold Store.switchToNode Store.getNodeByID
    rw [hfind]
    simp [hresp]
  · intro s recipeID node hresp
    unfold Store.updateRecipeFromNode
    rw [hresp]
  · intro s recipeID nodeID tree s2 node htree hset hfind hresp
    constructor
    · unfold Store.treeServiceSetActiveNode
      rw [htree]
      dsimp only
      rw [hset]
      dsimp only
      rw [hfind]
      dsimp only
      rw [hresp]
      rfl
    · exact setActiveNode_recipes_eq s tree.id nodeID s2 hset

/-- Witness for C7 at the concrete store. -/
theorem c7_empty_snapshot_witness :
    c7Store.switchToNode 1 2 = .error (.invalid "cannot switch to node with no response")
    ∧ c7Store.updateRecipeFromNode 1 c7NodeTwo = .error (.invalid "node response is nil")
    ∧ (c7Store.treeServiceSetActiveNode 1 2 = .ok c7After
        ∧ c7After.recipes = c7Store.recipes) :=
  ⟨c7_empty_snapshot.1 c7Store 1 2 c7NodeTwo rfl rfl,
   c7_empty_snapshot.2.1 c7Store 1 c7NodeTwo rfl,
   c7_empty_snapshot.2.2 c7Store 1 2 { id := 1, recipeID := 1, rootNodeID := some 1 }
     c7After { c7NodeTwo with isActive := true } rfl rfl rfl rfl⟩

/-- Witness for C1 at a concrete store. -/
theorem c1_exactly_one_active_witness :
    (((c1Store.addNodeToTree c1NewNode true).2).activeNodesInTree c1NewNode.treeID).map RecipeNode.id
        = [(c1Store.addNodeToTree c1NewNode true).1]
    ∧ (c1Store.setActiveNode 1 2).map
          (fun s2 => (s2.activeNodesInTree 1).map RecipeNode.id)
        = .ok [2] :=
  ⟨c1_exactly_one_active.1 c1Store c1NewNode (by decide),
   c1_exactly_one_active.2 c1Store 1 2 (by decide) (by decide)⟩

/-- C2 counterexample: the recipe exists before the regeneration flow,
and a text-generation failure during FinishRegenerateRecipe deletes it —
the regeneration flow does NOT leave the existing recipe in place. -/
theorem c2_counterexample :
    (c7Store.recipes.any (fun r => r.id == c2Recipe.id)) = true
    ∧ ((finishRegenerateRecipe c7Store c2Recipe "more"
          (.error "upstream failure")).1.recipes.any
        (fun r => r.id == c2Recipe.id)) = false := ⟨rfl, rfl⟩

/-- C2 amended: on a text-generation failure (or the shared deadline
expiring during text generation) the regeneration flow behaves exactly
like the create/fork flows — it deletes the existing Recipe row, so the
recipe no longer exists afterwards. -/
theorem c2_regen_failure_deletes :
    ∀ (s : Store) (recipe : Recipe) (prompt msg : String),
      (finishRegenerateRecipe s recipe prompt (.error msg)).1 = s.deleteRecipe recipe.id
      ∧ ((finishRegenerateRecipe s recipe prompt (.error msg)).1.recipes.any
          (fun r => r.id == recipe.id)) = false := by
  intro s recipe prompt msg
  refine ⟨rfl, ?_⟩
  show ((s.deleteRecipe recipe.id).recipes.any (fun r => r.id == recipe.id)) = false
  rw [Bool.eq_false_iff]
  intro hany
  rcases List.any_eq_true.mp hany with ⟨r, hr, hid⟩
  have hmem := List.mem_filter.mp hr
  rw [hid] at hmem
  exact absurd hmem.2 (by simp)

/-- C3 counterexample: the trace of a successful regeneration commit is
update fields, append history, associate hashtags, tree write — the tree
write comes after the hashtag re-association, not before. -/
theorem c3_counterexample :
    (finishRegenerateRecipe c7Store c2Recipe "more" (.ok sampleResult)).2
        = [CommitStep.updateFields, CommitStep.appendHistory,
           CommitStep.associateHashtags, CommitStep.treeWrite]
    ∧ (finishRegenerateRecipe c7Store c2Recipe "more" (.ok sampleResult)).2
        ≠ [CommitStep.updateFields, CommitStep.appendHistory,
           CommitStep.treeWrite, CommitStep.associateHashtags] := by
  refine ⟨rfl, ?_⟩
  intro h
  rw [show (finishRegenerateRecipe c7Store c2Recipe "more" (.ok sampleResult)).2
      = [CommitStep.updateFields, CommitStep.appendHistory,
         CommitStep.associateHashtags, CommitStep.treeWrite] from rfl] at h
  simp at h

/-- C3 amended: on a successful commit both Finish flows perform, in
order: (1) update the recipe's materialized fields, (2) append a history
record, (4) re-associate hashtags, and only then (3) write the tree node
(append-as-child-and-promote for regeneration, create-tree-with-root for
fork) — the hashtag re-association precedes the tree write. -/
theorem c3_commit_order :
    (∀ (s : Store) (recipe : Recipe) (prompt : String) (result : RecipeResult)
       (recipe2 : Recipe) (s1 : Store) (tree : RecipeTree) (node : RecipeNode),
      populateRecipeCoreFields recipe result (chatHistoryEntry prompt result) = .ok recipe2 →
      s.updateRecipeDef recipe2 (chatHistoryEntry prompt result) = .ok s1 →
      s1.getTreeByRecipeID recipe.id = .ok tree →
      s1.getActiveNode tree.id = .ok node →
      (finishRegenerateRecipe s recipe prompt (.ok result)).2
        = [CommitStep.updateFields, CommitStep.appendHistory,
           CommitStep.associateHashtags, CommitStep.treeWrite]) ∧
    (∀ (s : Store) (recipe : Recipe) (prompt : String) (result : RecipeResult)
       (recipe2 : Recipe) (s1 : Store),
      populateRecipeCoreFields recipe result (chatHistoryEntry prompt result) = .ok recipe2 →
      s.updateRecipeDef recipe2 (chatHistoryEntry prompt result) = .ok s1 →
      (finishGenerateRecipeWithFork s recipe prompt (.ok result)).2
        = [CommitStep.updateFields, CommitStep.appendHistory,
           CommitStep.associateHashtags, CommitStep.treeWrite]) := by
  constructor
  · intro s recipe prompt result recipe2 s1 tree node hpop hupd htree hact
    unfold finishRegenerateRecipe
    dsimp only
    rw [hpop]
    dsimp only
    rw [hupd]
    dsimp only
    rw [htree]
    dsimp only
    rw [hact]
    rfl
  · intro s recipe prompt result recipe2 s1 hpop hupd
    unfold finishGenerateRecipeWithFork
    dsimp only
    rw [hpop]
    dsimp only
    rw [hupd]

/-- Witness for C3 at concrete stores (regeneration on a store with a
tree and active node; fork commit on a store with an existing recipe). -/
theorem c3_commit_order_witness :
    (finishRegenerateRecipe c7Store c2Recipe "more" (.ok sampleResult)).2
        = [CommitStep.updateFields, CommitStep.appendHistory,
           CommitStep.associateHashtags, CommitStep.treeWrite]
    ∧ (finishGenerateRecipeWithFork c6Store c2Recipe "more" (.ok sampleResult)).2
        = [CommitStep.updateFields, CommitStep.appendHistory,
           CommitStep.associateHashtags, CommitStep.treeWrite] :=
  ⟨c3_commit_order.1 c7Store c2Recipe "more" sampleResult _ _ _ _ rfl rfl rfl rfl,
   c3_commit_order.2 c6Store c2Recipe "more" sampleResult _ _ rfl rfl⟩

/-- The accumulator loop of historyEntriesToMessages equals the
compositional per-entry reading: entry `i` contributes
`entryMessages currentDef (i == length - 1)`. -/
theorem historyEntriesToMessagesAux_spec (d : RecipeDef) (L : Nat) :
    ∀ (entries : List RecipeHistoryEntry) (i : Nat) (acc : List Message),
      historyEntriesToMessagesAux d L i entries acc
        = acc ++ (List.enumFrom i entries).flatMap
            (fun p => entryMessages d (p.1 == L - 1) p.2) := by
  intro entries
  induction entries with
  | nil => intro i acc; simp [historyEntriesToMessagesAux]
  | cons e rest ih =>
    intro i acc
    rcases e with ⟨p, r, sm, ty⟩
    cases ty
    case manualEntry =>
      cases hL : (i == L - 1) with
      | false =>
        have hne : ¬ i = L - 1 := by simpa using hL
        simp [historyEntriesToMessagesAux, entryMessages, ih, hL, hne, List.enumFrom]
      | true =>
        have heq : i = L - 1 := by simpa using hL
        simp [historyEntriesToMessagesAux, entryMessages, ih, hL, heq, List.enumFrom]
    all_goals
      simp [historyEntriesToMessagesAux, entryMessages, ih, List.enumFrom]

/-- C4 counterexample: with a (non-final) manual-entry turn followed by a
chat turn, the built context contains a single user/assistant pair — the
manual turn is dropped entirely rather than represented by a synthetic
simulated-revision message, and there is not one pair per prior turn. -/
theorem c4_counterexample :
    historyEntriesToMessages [c4ManualEntry, c4ChatEntry] sampleDef
        = [{ role := "user", content := "make it vegan" },
           { role := "assistant", content := marshalRecipeDef sampleDef }]
    ∧ (historyEntriesToMessages [c4ManualEntry, c4ChatEntry] sampleDef).length ≠ 4 :=
  ⟨rfl, by
    intro h
    rw [show (historyEntriesToMessages [c4ManualEntry, c4ChatEntry] sampleDef).length = 2
      from rfl] at h
    omega⟩

/-- C4 amended: each non-manual turn contributes one user/assistant pair
(user content the stored prompt; assistant content the current
definition's JSON when the turn is the most recent, its stored summary
otherwise), while a manual-entry turn contributes the synthetic
simulated-revision pair exactly when it is the most recent turn and is
skipped entirely otherwise. -/
theorem c4_history_messages :
    ∀ (entries : List RecipeHistoryEntry) (currentDef : RecipeDef),
      historyEntriesToMessages entries currentDef
        = entries.enum.flatMap
            (fun p => entryMessages currentDef (p.1 == entries.length - 1) p.2) := by
  intro entries currentDef
  unfold historyEntriesToMessages
  rw [historyEntriesToMessagesAux_spec]
  rfl

/-- Every per-entry contribution is either empty or one
user-then-assistant pair. -/
theorem entryMessages_shape (d : RecipeDef) (b : Bool) (e : RecipeHistoryEntry) :
    entryMessages d b e = []
    ∨ ∃ u a, entryMessages d b e
        = [{ role := "user", content := u }, { role := "assistant", content := a }] := by
  rcases e with ⟨p, r, sm, ty⟩
  cases ty <;> cases b <;>
    first
      | exact Or.inl rfl
      | exact Or.inr ⟨_, _, rfl⟩

/-- Flattening per-entry contributions always yields a strict
user/assistant alternation of even length. -/
theorem chain_flatMap (d : RecipeDef) (L : Nat) (l : List (Nat × RecipeHistoryEntry)) :
    isUserAssistantChain (l.flatMap (fun p => entryMessages d (p.1 == L - 1) p.2)) = true
    ∧ (l.flatMap (fun p => entryMessages d (p.1 == L - 1) p.2)).length % 2 = 0 := by
  induction l with
  | nil => exact ⟨rfl, rfl⟩
  | cons p rest ih =>
    rcases entryMessages_shape d (p.1 == L - 1) p.2 with h | ⟨u, a, h⟩
    · rw [List.flatMap_cons, h, List.nil_append]
      exact ih
    · rw [List.flatMap_cons, h]
      constructor
      · simp [isUserAssistantChain, ih.1]
      · have h2 := ih.2
        simp only [List.cons_append, List.nil_append, List.length_cons]
        omega

/-- C10: for every history and current definition, the built context has
even length and strictly alternates user/assistant starting with a user
message. -/
theorem c10_messages_user_assistant_pairs :
    ∀ (entries : List RecipeHistoryEntry) (currentDef : RecipeDef),
      isUserAssistantChain (historyEntriesToMessages entries currentDef) = true
      ∧ (historyEntriesToMessages entries currentDef).length % 2 = 0 := by
  intro entries currentDef
  unfold historyEntriesToMessages
  rw [historyEntriesToMessagesAux_spec]
  rw [List.nil_append]
  exact chain_flatMap currentDef entries.length (List.enumFrom 0 entries)

/-- With pairwise distinct ids, the primary-key lookup of a member's id
returns that member. -/
theorem find_by_id_nodup (l : List RecipeNode) (n₀ : RecipeNode)
    (hn : (l.map RecipeNode.id).Nodup) (hmem : n₀ ∈ l) :
    l.find? (fun n => n.id == n₀.id) = some n₀ := by
  induction l with
  | nil => cases hmem
  | cons a l ih =>
    simp only [List.map_cons, List.nodup_cons] at hn
    rcases List.mem_cons.mp hmem with rfl | hmem2
    · simp
    · have hne : (a.id == n₀.id) = false := by
        apply beq_eq_false_iff_ne.mpr
        intro hcon
        exact hn.1 (hcon ▸ List.mem_map_of_mem RecipeNode.id hmem2)
      rw [List.find?_cons_of_neg _ (by simp [hne])]
      exact ih hn.2 hmem2

/-- The head of a nonempty list survives appending on the right. -/
theorem head?_append_some (l l2 : List RecipeNode) (a : RecipeNode)
    (h : l.head? = some a) : (l ++ l2).head? = some a := by
  cases l with
  | nil => cases h
  | cons x xs => simp at h; simp [h]

/-- The head of a list is a member. -/
theorem mem_of_head?_eq (l : List RecipeNode) (a : RecipeNode)
    (h : l.head? = some a) : a ∈ l := by
  cases l with
  | nil => cases h
  | cons x xs =>
    simp at h
    rw [← h]
    exact List.mem_cons_self x xs

/-- A parent chain extends on the right by a properly linked child. -/
theorem isParentChain_append_one :
    ∀ (l : List RecipeNode) (m b : RecipeNode),
      isParentChain l = true → l.getLast? = some m →
      b.parentID = some m.id → b.treeID = m.treeID →
      isParentChain (l ++ [b]) = true := by
  intro l
  induction l with
  | nil => intro m b _ hlast _ _; cases hlast
  | cons a l ih =>
    intro m b hl hlast hb ht
    cases l with
    | nil =>
      have hm : a = m := by simpa using hlast
      subst hm
      simp [isParentChain, hb, ht]
    | cons c l2 =>
      have hl2 : isParentChain (c :: l2) = true := by
        have := hl
        simp only [isParentChain, Bool.and_eq_true] at this
        exact this.2
      have hlink : (c.parentID == some a.id && c.treeID == a.treeID) = true := by
        have := hl
        simp only [isParentChain, Bool.and_eq_true] at this
        exact by
          rw [Bool.and_eq_true]
          exact this.1
      have hlast2 : (c :: l2).getLast? = some m := by
        rw [← hlast]; rfl
      have hext := ih m b hl2 hlast2 hb ht
      show isParentChain (a :: ((c :: l2) ++ [b])) = true
      have hshape : (c :: l2) ++ [b] = c :: (l2 ++ [b]) := rfl
      rw [hshape]
      simp only [isParentChain, Bool.and_eq_true]
      constructor
      · rw [← Bool.and_eq_true]; exact hlink
      · rw [← hshape]; exact hext

/-- The ancestor walk, run with fuel exceeding the start node's id,
terminates with the root-first parent chain ending at the start node. -/
theorem getNodeAncestorsLoop_ok (s : Store)
    (hn : (s.nodes.map RecipeNode.id).Nodup)
    (hwf : wellFormedParentsB s.nodes = true) :
    ∀ (v : Nat) (node : RecipeNode), node ∈ s.nodes → node.id = v →
      ∀ (acc : List RecipeNode) (fuel : Nat), v < fuel →
        ∃ chain : List RecipeNode,
          s.getNodeAncestorsLoop fuel node.id acc = .ok (chain ++ acc)
          ∧ chain ≠ []
          ∧ (∀ x ∈ chain, x ∈ s.nodes ∧ x.treeID = node.treeID)
          ∧ chain.getLast? = some node
          ∧ (∃ root, chain.head? = some root ∧ root.parentID = none)
          ∧ isParentChain chain = true := by
  intro v
  induction v using Nat.strong_induction_on with
  | _ v ih =>
    intro node hmem hv acc fuel hfuel
    have hfind : s.findNodeByID node.id = some node :=
      find_by_id_nodup s.nodes node hn hmem
    cases fuel with
    | zero => omega
    | succ f =>
      have hstep : Store.getNodeAncestorsLoop s (f + 1) node.id acc
          = match s.findNodeByID node.id with
            | none => .error (.notFound "record not found")
            | some nd =>
              match nd.parentID with
              | none => .ok (nd :: acc)
              | some p => Store.getNodeAncestorsLoop s f p (nd :: acc) := rfl
      cases hpar : node.parentID with
      | none =>
        refine ⟨[node], ?_, by simp, ?_, by simp, ⟨node, by simp, hpar⟩, by simp [isParentChain]⟩
        · rw [hstep, hfind]
          dsimp only
          rw [hpar]
          rfl
        · intro x hx
          simp at hx
          subst hx
          exact ⟨hmem, rfl⟩
      | some p =>
        have hwfn := (List.all_eq_true.mp hwf) node hmem
        rw [hpar] at hwfn
        dsimp only at hwfn
        rw [Bool.and_eq_true] at hwfn
        have hlt : p < node.id := of_decide_eq_true hwfn.1
        rcases List.any_eq_true.mp hwfn.2 with ⟨m, hmmem, hmprop⟩
        rw [Bool.and_eq_true] at hmprop
        have hmid : m.id = p := eq_of_beq hmprop.1
        have hmtree : m.treeID = node.treeID := eq_of_beq hmprop.2
        obtain ⟨chain2, heq, hne, hmembers, hlast, hroot, hchain⟩ :=
          ih p (by omega) m hmmem hmid (node :: acc) f (by omega)
        rw [hmid] at heq
        refine ⟨chain2 ++ [node], ?_, by simp, ?_, ?_, ?_, ?_⟩
        · rw [hstep, hfind]
          dsimp only
          rw [hpar]
          dsimp only
          rw [heq]
          simp
        · intro x hx
          rcases List.mem_append.mp hx with hx2 | hx2
          · obtain ⟨h1, h2⟩ := hmembers x hx2
            exact ⟨h1, h2.trans hmtree⟩
          · simp at hx2
            subst hx2
            exact ⟨hmem, rfl⟩
        · rw [List.getLast?_concat]
        · obtain ⟨root, hh, hp⟩ := hroot
          exact ⟨root, head?_append_some chain2 [node] root hh, hp⟩
        · exact isParentChain_append_one chain2 m node hchain hlast
            (by rw [hpar, hmid]) hmtree.symm

/-- C9: in a well-formed store (distinct ids, every parent reference
resolving to an existing same-tree node of smaller id — the
parent-pre-exists discipline that excludes cycles, with the tree's root
reference recorded), GetNodeAncestors terminates within `node.id + 1`
lookups and returns the chain from the tree's recorded root to the node
in root-first order, the first node having an empty parent reference;
and when a parent reference points to a missing node the walk fails with
the lookup error instead of looping. -/
theorem c9_ancestors_terminate :
    (∀ (s : Store) (node : RecipeNode) (tree : RecipeTree),
      (s.nodes.map RecipeNode.id).Nodup →
      wellFormedParentsB s.nodes = true →
      rootsRecordedB s = true →
      node ∈ s.nodes →
      tree ∈ s.trees →
      tree.id = node.treeID →
      ∃ chain root,
        s.getNodeAncestors node.id (node.id + 1) = .ok chain
        ∧ chain.head? = some root
        ∧ root.parentID = none
        ∧ tree.rootNodeID = some root.id
        ∧ chain.getLast? = some node
        ∧ isParentChain chain = true) ∧
    (∀ (s : Store) (node : RecipeNode) (p fuel : Nat),
      s.findNodeByID node.id = some node →
      node.parentID = some p →
      s.findNodeByID p = none →
      s.getNodeAncestors node.id (fuel + 2) = .error (.notFound "record not found")) := by
  constructor
  · intro s node tree hn hwf hroots hmem htree htreeid
    obtain ⟨chain, heq, hne, hmembers, hlast, ⟨root, hh, hp⟩, hchain⟩ :=
      getNodeAncestorsLoop_ok s hn hwf node.id node hmem rfl [] (node.id + 1) (by omega)
    rw [List.append_nil] at heq
    have hrootmem : root ∈ chain := mem_of_head?_eq chain root hh
    obtain ⟨hrootnodes, hroottree⟩ := hmembers root hrootmem
    have hrec := (List.all_eq_true.mp ((List.all_eq_true.mp hroots) tree htree)) root hrootnodes
    have h1 : (root.treeID == tree.id) = true := by
      rw [htreeid, hroottree]
      exact beq_self_eq_true node.treeID
    have h2 : root.parentID.isSome = false := by rw [hp]; rfl
    rw [h1, h2] at hrec
    simp only [Bool.not_true, Bool.false_or] at hrec
    have hrootid : tree.rootNodeID = some root.id := by
      have := eq_of_beq hrec
      exact this
    exact ⟨chain, root, heq, hh, hp, hrootid, hlast, hchain⟩
  · intro s node p fuel hfind hpar hnone
    show Store.getNodeAncestorsLoop s (fuel + 2) node.id [] = _
    have hstep : Store.getNodeAncestorsLoop s (fuel + 2) node.id []
        = match s.findNodeByID node.id with
          | none => .error (.notFound "record not found")
          | some nd =>
            match nd.parentID with
            | none => .ok (nd :: [])
            | some q => Store.getNodeAncestorsLoop s (fuel + 1) q (nd :: []) := rfl
    rw [hstep, hfind]
    dsimp only
    rw [hpar]
    dsimp only
    have hstep2 : Store.getNodeAncestorsLoop s (fuel + 1) p (node :: [])
        = match s.findNodeByID p with
          | none => .error (.notFound "record not found")
          | some nd =>
            match nd.parentID with
            | none => .ok (nd :: (node :: []))
            | some q => Store.getNodeAncestorsLoop s fuel q (nd :: (node :: [])) := rfl
    rw [hstep2, hnone]

/-- Witness for C9: the two-node chain of `c1Store` and the dangling
store. -/
theorem c9_ancestors_terminate_witness :
    (∃ chain root,
        c1Store.getNodeAncestors c9Node.id (c9Node.id + 1) = .ok chain
        ∧ chain.head? = some root
        ∧ root.parentID = none
        ∧ c9Tree.rootNodeID = some root.id
        ∧ chain.getLast? = some c9Node
        ∧ isParentChain chain = true)
    ∧ c9DanglingStore.getNodeAncestors c9DanglingNode.id (0 + 2)
        = .error (.notFound "record not found") :=
  ⟨c9_ancestors_terminate.1 c1Store c9Node c9Tree (by decide) (by decide) (by decide)
      (by decide) (by decide) rfl,
   c9_ancestors_terminate.2 c9DanglingStore c9DanglingNode 2 0 rfl rfl rfl⟩

/-- The stores built by the C5 scenario have the expected shape: one
tree rooted at node 1 and the chain nodes table. -/
theorem buildChain_store (n : Nat) :
    buildChain n = chainStore n := by
  induction n with
  | zero => rfl
  | succ n ih =>
    show ((buildChain n).addNodeToTree (chainNodeInput 1 (some (n + 1))) true).2 = _
    rw [ih]
    unfold chainStore
    have hstep : ∀ (s : Store) (node : RecipeNode),
        Store.addNodeToTree s node true
        = (s.nextNodeID,
           { s with
              nodes := ((s.nodes ++ [{ node with id := s.nextNodeID }]).map
                  (fun (m : RecipeNode) =>
                    if m.treeID == node.treeID && m.id != s.nextNodeID then
                      { m with isActive := false } else m)).map
                  (fun (m : RecipeNode) =>
                    if m.id == s.nextNodeID then { m with isActive := true } else m),
              nextNodeID := s.nextNodeID + 1 }) := fun s node => rfl
    rw [hstep]
    simp only [Store.mk.injEq, and_true, true_and]
    rw [List.map_append, List.map_append]
    have htarget : chainNodes (n + 2)
        = (List.range (n + 1)).map (fun k => chainNode (k + 1) (n + 2))
          ++ [chainNode (n + 2) (n + 2)] := by
      show (List.range (n + 2)).map (fun k => chainNode (k + 1) (n + 2)) = _
      rw [List.range_succ, List.map_append]
      rfl
    rw [htarget]
    congr 1
    · show ((chainNodes (n + 1)).map _).map _ = _
      unfold chainNodes
      rw [List.map_map, List.map_map]
      apply List.map_eq_map_iff.mpr
      intro k hk
      have hklt : k < n + 1 := List.mem_range.mp hk
      have h1 : ((k + 1 : Nat) == n + 2) = false := by
        rw [beq_eq_false_iff_ne]; omega
      have h2 : ((k + 1 : Nat) != n + 2) = true := by
        simp [bne, h1]
      simp [Function.comp, chainNode, chainNodeInput, h1, h2]
    · have h3 : ((n + 2 : Nat) == 1) = false := by
        rw [beq_eq_false_iff_ne]; omega
      simp [chainNode, chainNodeInput, h3]

/-- Filtering the id `i` out of `range cnt` keeps exactly `[i]` when in
range. -/
theorem range_filter_eq_single (i : Nat) :
    ∀ cnt, (List.range cnt).filter (fun k => k == i) = if i < cnt then [i] else [] := by
  intro cnt
  induction cnt with
  | zero => simp
  | succ c ih =>
    rw [List.range_succ, List.filter_append, ih]
    by_cases h : i < c
    · rw [if_pos h, if_pos (by omega)]
      have hne : ((c : Nat) == i) = false := by rw [beq_eq_false_iff_ne]; omega
      simp [hne]
    · by_cases h2 : i = c
      · subst h2
        rw [if_neg h, if_pos (by omega)]
        simp
      · rw [if_neg h, if_neg (by omega)]
        have hne : ((c : Nat) == i) = false := by rw [beq_eq_false_iff_ne]; omega
        simp [hne]

/-- In a chain of `cnt` nodes, the children of node `i` are exactly node
`i + 1` when it exists. -/
theorem chainNodes_filter_children (cnt i : Nat) (h1 : 1 ≤ i) :
    (chainNodes cnt).filter (fun c => c.parentID == some i)
      = if i + 1 ≤ cnt then [chainNode (i + 1) cnt] else [] := by
  unfold chainNodes
  rw [List.map_filter]
  have hcong : (List.range cnt).filter
      ((fun c => c.parentID == some i) ∘ fun k => chainNode (k + 1) cnt)
      = (List.range cnt).filter (fun k => k == i) := by
    apply List.filter_congr'
    intro k _
    simp only [Function.comp, chainNode]
    by_cases hk : k = 0
    · subst hk
      have hzero : ((0 : Nat) == i) = false := by rw [beq_eq_false_iff_ne]; omega
      simp [hzero]
    · have hne1 : ((k + 1 : Nat) == 1) = false := by rw [beq_eq_false_iff_ne]; omega
      simp [hne1]
  rw [hcong, range_filter_eq_single]
  by_cases h : i < cnt
  · rw [if_pos h, if_pos (by omega)]
    rfl
  · rw [if_neg h, if_neg (by omega)]
    rfl

/-- Every chain node belongs to tree 1, so the tree filter keeps all of
them. -/
theorem chainNodes_filter_tree (cnt : Nat) :
    (chainNodes cnt).filter (fun n => n.treeID == 1) = chainNodes cnt := by
  apply List.filter_eq_self.mpr
  intro n hn
  rcases List.mem_map.mp hn with ⟨k, _, rfl⟩
  rfl

/-- The root lookup in a chain finds node 1 first. -/
theorem chainNodes_find_root (cnt : Nat) :
    (chainNodes (cnt + 1)).find? (fun n => n.id == 1) = some (chainNode 1 (cnt + 1)) := by
  unfold chainNodes
  rw [List.range_succ_eq_map, List.map_cons]
  exact List.find?_cons_of_pos _ rfl

/-- Rebuilding the chain from node `i` (with `r` descendants below it and
enough fuel) yields the expected nested chain. -/
theorem rebuild_chain (cnt : Nat) :
    ∀ (r i fuel : Nat), i + r = cnt → 1 ≤ i → r < fuel →
      rebuildNode (chainNodes cnt) fuel (chainNode i cnt) = chainRespDown r i cnt := by
  intro r
  induction r with
  | zero =>
    intro i fuel hir h1 hf
    cases fuel with
    | zero => omega
    | succ f =>
      have hstep : rebuildNode (chainNodes cnt) (f + 1) (chainNode i cnt)
          = NodeResp.mk (chainNode i cnt).id (chainNode i cnt).parentID
              (chainNode i cnt).branchName (chainNode i cnt).summary (chainNode i cnt).type
              (chainNode i cnt).isActive (chainNode i cnt).isEphemeral
              (chainNode i cnt).createdByID
              (((chainNodes cnt).filter
                  (fun c => c.parentID == some (chainNode i cnt).id)).map
                (rebuildNode (chainNodes cnt) f)) := rfl
      rw [hstep]
      simp only [show (chainNode i cnt).id = i from rfl]
      rw [chainNodes_filter_children cnt i h1, if_neg (by omega)]
      rfl
  | succ r ih =>
    intro i fuel hir h1 hf
    cases fuel with
    | zero => omega
    | succ f =>
      have hstep : rebuildNode (chainNodes cnt) (f + 1) (chainNode i cnt)
          = NodeResp.mk (chainNode i cnt).id (chainNode i cnt).parentID
              (chainNode i cnt).branchName (chainNode i cnt).summary (chainNode i cnt).type
              (chainNode i cnt).isActive (chainNode i cnt).isEphemeral
              (chainNode i cnt).createdByID
              (((chainNodes cnt).filter
                  (fun c => c.parentID == some (chainNode i cnt).id)).map
                (rebuildNode (chainNodes cnt) f)) := rfl
      rw [hstep]
      simp only [show (chainNode i cnt).id = i from rfl]
      rw [chainNodes_filter_children cnt i h1, if_pos (by omega)]
      rw [show ([chainNode (i + 1) cnt].map (rebuildNode (chainNodes cnt) f))
          = [rebuildNode (chainNodes cnt) f (chainNode (i + 1) cnt)] from rfl]
      rw [ih (i + 1) f (by omega) (by omega) (by omega)]
      rfl

/-- The expected nested chain passes the linear-chain check. -/
theorem chainRespDown_linear :
    ∀ (r i cnt : Nat), i + r = cnt →
      isLinearChainB (chainRespDown r i cnt) i cnt = true := by
  intro r
  induction r with
  | zero =>
    intro i cnt h
    have heq : i = cnt := by omega
    subst heq
    simp [chainRespDown, isLinearChainB]
  | succ r ih =>
    intro i cnt h
    have hne : (i == cnt) = false := by rw [beq_eq_false_iff_ne]; omega
    simp [chainRespDown, isLinearChainB, hne, ih (i + 1) cnt (by omega)]

/-- C5: for every N, GetTree on the store built by CreateTree followed by
N AddNode(setActive) calls returns the nested linear chain rooted at the
recorded root node 1, of depth N + 1, whose unique deepest leaf is the
last-added node N + 1, the only active node. -/
theorem c5_chain_roundtrip :
    ∀ N : Nat,
      (buildChain N).getTree 1
        = .ok { treeID := 1, recipeID := 1, rootNodeID := some 1,
                rootNode := some (chainResp 1 (N + 1)) }
      ∧ isLinearChainB (chainResp 1 (N + 1)) 1 (N + 1) = true := by
  intro N
  constructor
  · rw [buildChain_store]
    have hUnfold : (chainStore N).getTree 1
        = .ok { treeID := 1, recipeID := 1, rootNodeID := some 1,
                rootNode :=
                  match ((chainNodes (N + 1)).filter (fun n => n.treeID == 1)).find?
                      (fun n => n.id == 1) with
                  | none => none
                  | some rn =>
                    some (rebuildNode
                      ((chainNodes (N + 1)).filter (fun n => n.treeID == 1))
                      ((chainNodes (N + 1)).filter (fun n => n.treeID == 1)).length rn) } := rfl
    rw [hUnfold, chainNodes_filter_tree (N + 1), chainNodes_find_root N]
    have hlen : (chainNodes (N + 1)).length = N + 1 := by
      simp [chainNodes]
    rw [hlen]
    dsimp only
    rw [rebuild_chain (N + 1) N 1 (N + 1) (by omega) (by omega) (by omega)]
    rfl
  · exact chainRespDown_linear N 1 (N + 1) (by omega)

/-- Unfolding of a successful migrateRecipeToTree run. -/
theorem migrateRecipeToTree_ok (failSet : List Nat) (s : Store) (r : Recipe)
    (entries : List RecipeHistoryEntry) (hh : r.history = some entries)
    (hne : entries ≠ []) (hf : r.id ∉ failSet) :
    migrateRecipeToTree failSet s r
      = .ok { recipes := s.recipes.map (fun x =>
                if x.id == r.id then { x with treeID := some s.nextTreeID } else x),
              trees := s.trees ++ [{ id := s.nextTreeID, recipeID := r.id,
                                     rootNodeID := some s.nextNodeID }],
              nodes := (s.nodes ++ migChainNodes s.nextTreeID r.createdByID
                          s.nextNodeID none entries).map
                  (fun n => if n.id == s.nextNodeID + entries.length - 1 then
                      { n with isActive := true } else n),
              nextTreeID := s.nextTreeID + 1,
              nextNodeID := s.nextNodeID + entries.length } := by
  unfold migrateRecipeToTree
  rw [hh]
  dsimp only
  rw [if_neg (by simp [hne]), if_neg hf]

/-- Activation keyed on an id absent from the list is the identity. -/
theorem map_activate_skips (l : List RecipeNode) (j : Nat) (h : ∀ n ∈ l, n.id ≠ j) :
    l.map (fun n => if n.id == j then { n with isActive := true } else n) = l := by
  have hmap : l.map (fun n => if n.id == j then { n with isActive := true } else n)
      = l.map id := by
    apply List.map_eq_map_iff.mpr
    intro n hn
    have hne : (n.id == j) = false := beq_eq_false_iff_ne.mpr (h n hn)
    simp [hne]
  rw [hmap, List.map_id]

/-- Activation preserves a node's tree and id. -/
theorem act_preserves (j : Nat) (n : RecipeNode) :
    ((if n.id == j then { n with isActive := true } else n) : RecipeNode).treeID = n.treeID
    ∧ ((if n.id == j then { n with isActive := true } else n) : RecipeNode).id = n.id := by
  by_cases h : n.id == j <;> simp [h]

/-- Every node generated by the migration loop carries the new tree id. -/
theorem migChainNodes_treeID (T cb : Nat) :
    ∀ (es : List RecipeHistoryEntry) (nid : Nat) (parent : Option Nat),
      ∀ n ∈ migChainNodes T cb nid parent es, n.treeID = T := by
  intro es
  induction es with
  | nil => intro nid parent n hn; cases hn
  | cons e es ih =>
    intro nid parent n hn
    rcases List.mem_cons.mp hn with rfl | h2
    · rfl
    · exact ih (nid + 1) (some nid) n h2

/-- The ids generated by the migration loop lie in [nid, nid + length). -/
theorem migChainNodes_id_range (T cb : Nat) :
    ∀ (es : List RecipeHistoryEntry) (nid : Nat) (parent : Option Nat),
      ∀ n ∈ migChainNodes T cb nid parent es, nid ≤ n.id ∧ n.id < nid + es.length := by
  intro es
  induction es with
  | nil => intro nid parent n hn; cases hn
  | cons e es ih =>
    intro nid parent n hn
    rcases List.mem_cons.mp hn with rfl | h2
    · constructor
      · exact Nat.le_refl _
      · simp
    · obtain ⟨h1, h2b⟩ := ih (nid + 1) (some nid) n h2
      constructor
      · omega
      · simp only [List.length_cons]
        omega

/-- A recipe-row update keyed on one id preserves every row's id, so it
commutes with filtering by another id. -/
theorem filter_map_update_other (l : List Recipe) (i j tid : Nat) :
    (l.map (fun x => if x.id == j then { x with treeID := some tid } else x)).filter
      (fun x => x.id == i)
    = (l.filter (fun x => x.id == i)).map
        (fun x => if x.id == j then { x with treeID := some tid } else x) := by
  rw [List.map_filter]
  have hfc : l.filter ((fun x => x.id == i) ∘
        fun x => if x.id == j then { x with treeID := some tid } else x)
      = l.filter (fun x => x.id == i) := by
    apply List.filter_congr'
    intro x _
    simp only [Function.comp]
    by_cases h : x.id == j <;> simp [h]
  rw [hfc]

/-- One migration step, run on a store satisfying the freshness bounds,
leaves every other recipe's tree rows, every existing tree's node rows
and every other recipe's row untouched, preserves the bounds, and never
decreases the tree counter. -/
theorem migrationStep_observation (failSet : List Nat) (acc : Store) (x : Recipe)
    (hbt : ∀ t ∈ acc.trees, t.id < acc.nextTreeID)
    (hbn : ∀ n ∈ acc.nodes, n.id < acc.nextNodeID)
    (hbtn : ∀ n ∈ acc.nodes, n.treeID < acc.nextTreeID) :
    (∀ i, i ≠ x.id → (migrationStep failSet acc x).trees.filter (fun t => t.recipeID == i)
        = acc.trees.filter (fun t => t.recipeID == i))
    ∧ (∀ T, T < acc.nextTreeID →
        (migrationStep failSet acc x).nodes.filter (fun n => n.treeID == T)
          = acc.nodes.filter (fun n => n.treeID == T))
    ∧ (∀ i, i ≠ x.id → (migrationStep failSet acc x).recipes.filter (fun r2 => r2.id == i)
        = acc.recipes.filter (fun r2 => r2.id == i))
    ∧ (∀ t ∈ (migrationStep failSet acc x).trees, t.id < (migrationStep failSet acc x).nextTreeID)
    ∧ (∀ n ∈ (migrationStep failSet acc x).nodes, n.id < (migrationStep failSet acc x).nextNodeID)
    ∧ (∀ n ∈ (migrationStep failSet acc x).nodes, n.treeID < (migrationStep failSet acc x).nextTreeID)
    ∧ acc.nextTreeID ≤ (migrationStep failSet acc x).nextTreeID := by
  have hid : ∀ s2 : Store, migrationStep failSet acc x = s2 → s2 = acc ∨
      (∃ es : List RecipeHistoryEntry, x.history = some es ∧ es ≠ [] ∧
        s2 = { recipes := acc.recipes.map (fun y =>
                 if y.id == x.id then { y with treeID := some acc.nextTreeID } else y),
               trees := acc.trees ++ [{ id := acc.nextTreeID, recipeID := x.id,
                                        rootNodeID := some acc.nextNodeID }],
               nodes := (acc.nodes ++ migChainNodes acc.nextTreeID x.createdByID
                           acc.nextNodeID none es).map
                   (fun n => if n.id == acc.nextNodeID + es.length - 1 then
                       { n with isActive := true } else n),
               nextTreeID := acc.nextTreeID + 1,
               nextNodeID := acc.nextNodeID + es.length }) := by
    intro s2 hs2
    unfold migrationStep at hs2
    cases hxh : x.history with
    | none =>
      rw [migrateRecipeToTree, hxh] at hs2
      left; exact hs2.symm
    | some es =>
      by_cases hempty : es = []
      · subst hempty
        rw [migrateRecipeToTree, hxh] at hs2
        simp only [List.isEmpty_nil, reduceIte] at hs2
        left; exact hs2.symm
      · by_cases hfs : x.id ∈ failSet
        · rw [migrateRecipeToTree, hxh] at hs2
          dsimp only at hs2
          rw [if_neg (by simp [hempty]), if_pos hfs] at hs2
          left; exact hs2.symm
        · rw [migrateRecipeToTree_ok failSet acc x es hxh hempty hfs] at hs2
          right
          exact ⟨es, rfl, hempty, hs2.symm⟩
  rcases hid (migrationStep failSet acc x) rfl with heq | ⟨es, hxh, hesne, heq⟩
  · rw [heq]
    exact ⟨fun i _ => rfl, fun T _ => rfl, fun i _ => rfl, hbt, hbn, hbtn, Nat.le_refl _⟩
  · have heslen : 1 ≤ es.length := by
      cases es with
      | nil => exact absurd rfl hesne
      | cons a b => simp
    rw [heq]
    dsimp only
    have hnewtree : ∀ n ∈ migChainNodes acc.nextTreeID x.createdByID acc.nextNodeID none es,
        n.treeID = acc.nextTreeID :=
      fun n hn => migChainNodes_treeID acc.nextTreeID x.createdByID es acc.nextNodeID none n hn
    have hnewid : ∀ n ∈ migChainNodes acc.nextTreeID x.createdByID acc.nextNodeID none es,
        acc.nextNodeID ≤ n.id ∧ n.id < acc.nextNodeID + es.length :=
      fun n hn => migChainNodes_id_range acc.nextTreeID x.createdByID es acc.nextNodeID none n hn
    refine ⟨?_, ?_, ?_, ?_, ?_, ?_, by omega⟩
    · intro i hi
      rw [List.filter_append]
      have hfalse : ((x.id == i) : Bool) = false :=
        beq_eq_false_iff_ne.mpr (fun h => hi h.symm)
      simp [List.filter_cons, hfalse]
    · intro T hT
      rw [List.map_append, List.filter_append]
      rw [map_activate_skips acc.nodes _ (fun n hn => by have := hbn n hn; omega)]
      have hrest : ((migChainNodes acc.nextTreeID x.createdByID acc.nextNodeID none es).map
          (fun n => if n.id == acc.nextNodeID + es.length - 1 then
              { n with isActive := true } else n)).filter (fun n => n.treeID == T) = [] := by
        rw [List.filter_eq_nil]
        intro m hm
        rcases List.mem_map.mp hm with ⟨n, hn, rfl⟩
        have h1 := (act_preserves (acc.nextNodeID + es.length - 1) n).1
        rw [h1, hnewtree n hn]
        simp only [beq_eq_false_iff_ne.mpr (by omega : acc.nextTreeID ≠ T)]
        exact Bool.false_ne_true
      rw [hrest, List.append_nil]
    · intro i hi
      rw [filter_map_update_other]
      have : ∀ y ∈ acc.recipes.filter (fun r2 => r2.id == i),
          (if y.id == x.id then { y with treeID := some acc.nextTreeID } else y) = y := by
        intro y hy
        have hyid : y.id = i := eq_of_beq (List.mem_filter.mp hy).2
        rw [if_neg (by simp [hyid]; exact fun h => hi h)]
      calc (acc.recipes.filter (fun r2 => r2.id == i)).map
              (fun y => if y.id == x.id then { y with treeID := some acc.nextTreeID } else y)
          = (acc.recipes.filter (fun r2 => r2.id == i)).map id := List.map_eq_map_iff.mpr
              (fun y hy => this y hy)
        _ = acc.recipes.filter (fun r2 => r2.id == i) := List.map_id _
    · intro t ht
      rcases List.mem_append.mp ht with h | h
      · have := hbt t h; omega
      · simp at h
        rw [h]
        show acc.nextTreeID < acc.nextTreeID + 1
        omega
    · intro n hn
      rcases List.mem_map.mp hn with ⟨m, hm, rfl⟩
      rw [(act_preserves _ m).2]
      rcases List.mem_append.mp hm with h | h
      · have := hbn m h; omega
      · have := (hnewid m h).2; omega
    · intro n hn
      rcases List.mem_map.mp hn with ⟨m, hm, rfl⟩
      rw [(act_preserves _ m).1]
      rcases List.mem_append.mp hm with h | h
      · have := hbtn m h; omega
      · rw [hnewtree m h]; omega

/-- Folding migration steps whose recipes all have other ids preserves
the pre-migration invariant. -/
theorem migrationFold_pre (failSet : List Nat) (r : Recipe) :
    ∀ (cs : List Recipe) (acc : Store), (∀ x ∈ cs, x.id ≠ r.id) →
      PreMigration r acc → PreMigration r (cs.foldl (migrationStep failSet) acc) := by
  intro cs
  induction cs with
  | nil => intro acc _ h; exact h
  | cons x cs ih =>
    intro acc hx hpre
    rw [List.foldl_cons]
    apply ih _ (fun y hy => hx y (List.mem_cons_of_mem x hy))
    obtain ⟨h1, h2, h3, h4, h5, h6⟩ := hpre
    obtain ⟨o1, _, o3, o4, o5, o6, o7⟩ := migrationStep_observation failSet acc x h3 h4 h5
    have hxr : r.id ≠ x.id := (hx x (List.mem_cons_self x cs)).symm
    refine ⟨?_, ?_, o4, o5, o6, by omega⟩
    · rw [o1 r.id hxr]; exact h1
    · rw [o3 r.id hxr]; exact h2

/-- Folding migration steps whose recipes all have other ids preserves
the migrated-state invariant. -/
theorem migrationFold_tk (failSet : List Nat) (r : Recipe)
    (entries : List RecipeHistoryEntry) (T K : Nat) :
    ∀ (cs : List Recipe) (acc : Store), (∀ x ∈ cs, x.id ≠ r.id) →
      MigratedForTK r entries T K acc →
      MigratedForTK r entries T K (cs.foldl (migrationStep failSet) acc) := by
  intro cs
  induction cs with
  | nil => intro acc _ h; exact h
  | cons x cs ih =>
    intro acc hx hinv
    rw [List.foldl_cons]
    apply ih _ (fun y hy => hx y (List.mem_cons_of_mem x hy))
    obtain ⟨hT, htr, hnd, hrec, hbt, hbn, hbtn, hTlt⟩ := hinv
    obtain ⟨o1, o2, o3, o4, o5, o6, o7⟩ := migrationStep_observation failSet acc x hbt hbn hbtn
    have hxr : r.id ≠ x.id := (hx x (List.mem_cons_self x cs)).symm
    refine ⟨hT, ?_, ?_, ?_, o4, o5, o6, by omega⟩
    · rw [o1 r.id hxr]; exact htr
    · rw [o2 T hTlt]; exact hnd
    · rw [o3 r.id hxr]; exact hrec

/-- Migrating the recipe itself from a pre-migration store establishes
the migrated-state invariant with the store's current counters. -/
theorem migrationStep_transition (failSet : List Nat) (acc : Store) (r : Recipe)
    (entries : List RecipeHistoryEntry) (hh : r.history = some entries)
    (hne : entries ≠ []) (hf : r.id ∉ failSet) (hpre : PreMigration r acc) :
    MigratedForTK r entries acc.nextTreeID acc.nextNodeID
      (migrationStep failSet acc r) := by
  obtain ⟨h1, h2, h3, h4, h5, h6⟩ := hpre
  obtain ⟨_, _, _, o4, o5, o6, o7⟩ := migrationStep_observation failSet acc r h3 h4 h5
  have heslen : 1 ≤ entries.length := by
    cases entries with
    | nil => exact absurd rfl hne
    | cons a b => simp
  have hstep : migrationStep failSet acc r
      = { recipes := acc.recipes.map (fun x =>
            if x.id == r.id then { x with treeID := some acc.nextTreeID } else x),
          trees := acc.trees ++ [{ id := acc.nextTreeID, recipeID := r.id,
                                   rootNodeID := some acc.nextNodeID }],
          nodes := (acc.nodes ++ migChainNodes acc.nextTreeID r.createdByID
                      acc.nextNodeID none entries).map
              (fun n => if n.id == acc.nextNodeID + entries.length - 1 then
                  { n with isActive := true } else n),
          nextTreeID := acc.nextTreeID + 1,
          nextNodeID := acc.nextNodeID + entries.length } := by
    unfold migrationStep
    rw [migrateRecipeToTree_ok failSet acc r entries hh hne hf]
  refine ⟨h6, ?_, ?_, ?_, o4, o5, o6, ?_⟩
  · rw [hstep]
    dsimp only
    rw [List.filter_append, h1, List.nil_append]
    simp [List.filter_cons]
  · rw [hstep]
    dsimp only
    rw [List.map_append, List.filter_append]
    rw [map_activate_skips acc.nodes _ (fun n hn => by have := h4 n hn; omega)]
    have hold : acc.nodes.filter (fun n => n.treeID == acc.nextTreeID) = [] := by
      rw [List.filter_eq_nil]
      intro n hn
      have := h5 n hn
      rw [beq_eq_false_iff_ne.mpr (by omega : n.treeID ≠ acc.nextTreeID)]
      exact Bool.false_ne_true
    rw [hold, List.nil_append]
    apply List.filter_eq_self.mpr
    intro m hm
    rcases List.mem_map.mp hm with ⟨n, hn, rfl⟩
    rw [(act_preserves _ n).1,
      migChainNodes_treeID acc.nextTreeID r.createdByID entries acc.nextNodeID none n hn]
    exact beq_self_eq_true _
  · rw [hstep]
    dsimp only
    rw [filter_map_update_other, h2]
    simp [List.map_cons]
  · rw [hstep]
    show acc.nextTreeID < acc.nextTreeID + 1
    omega

/-- The activated migration chain passes the mirror check. -/
theorem migChainNodes_mirrors (T cb : Nat) :
    ∀ (es : List RecipeHistoryEntry) (nid : Nat) (parent : Option Nat),
      es ≠ [] →
      chainMirrorsB
        ((migChainNodes T cb nid parent es).map (fun n =>
          if n.id == nid + es.length - 1 then { n with isActive := true } else n))
        es parent = true := by
  intro es
  induction es with
  | nil => intro _ _ h; exact absurd rfl h
  | cons e es ih =>
    intro nid parent _
    by_cases hes : es = []
    · subst hes
      simp [migChainNodes, chainMirrorsB]
    · have hie : es.isEmpty = false := by
        cases es with
        | nil => exact absurd rfl hes
        | cons a b => rfl
      have heslen : 1 ≤ es.length := by
        cases es with
        | nil => exact absurd rfl hes
        | cons a b => simp
      have hne2 : (nid == nid + (e :: es).length - 1) = false := by
        rw [beq_eq_false_iff_ne]
        simp only [List.length_cons]
        omega
      simp only [migChainNodes, List.map_cons, chainMirrorsB, hne2, Bool.false_eq_true,
        if_false, hie]
      have harith : nid + (e :: es).length - 1 = nid + 1 + es.length - 1 := by
        simp only [List.length_cons]
        omega
      rw [harith]
      simp only [Bool.and_eq_true]
      refine ⟨⟨?_, ?_⟩, ?_⟩
      · simp
      · rfl
      · exact ih (nid + 1) (some nid) hes

/-- The migrated-state invariant yields the claim's migrated shape. -/
theorem migratedShape_of_tk (s1 : Store) (r : Recipe)
    (entries : List RecipeHistoryEntry) (T K : Nat)
    (hne : entries ≠ []) (h : MigratedForTK r entries T K s1) :
    migratedShapeB s1 r.id entries = true := by
  obtain ⟨hT, htr, hnd, _, _, _, _, _⟩ := h
  unfold migratedShapeB
  rw [htr]
  dsimp only
  rw [hnd]
  cases entries with
  | nil => exact absurd rfl hne
  | cons e es =>
    rw [Bool.and_eq_true]
    constructor
    · simp only [migChainNodes, List.map_cons, List.head?_cons]
      by_cases hact : (K == K + (e :: es).length - 1)
      · rw [if_pos hact]
        exact beq_self_eq_true _
      · rw [if_neg hact]
        exact beq_self_eq_true _
    · exact migChainNodes_mirrors T r.createdByID (e :: es) K none (by simp)

/-- With pairwise distinct recipe ids, filtering a member's id keeps
exactly that member. -/
theorem filter_recipe_by_id_nodup (l : List Recipe) (r : Recipe)
    (hn : (l.map Recipe.id).Nodup) (hmem : r ∈ l) :
    l.filter (fun x => x.id == r.id) = [r] := by
  induction l with
  | nil => cases hmem
  | cons a l ih =>
    simp only [List.map_cons, List.nodup_cons] at hn
    rcases List.mem_cons.mp hmem with rfl | hmem2
    · rw [List.filter_cons, if_pos (beq_self_eq_true r.id)]
      have hrest : l.filter (fun x => x.id == r.id) = [] := by
        rw [List.filter_eq_nil]
        intro x hx hq
        exact hn.1 (by rw [← eq_of_beq hq]; exact List.mem_map_of_mem Recipe.id hx)
      rw [hrest]
    · have hne : (a.id == r.id) = false := by
        apply beq_eq_false_iff_ne.mpr
        intro hcon
        exact hn.1 (hcon ▸ List.mem_map_of_mem Recipe.id hmem2)
      rw [List.filter_cons, if_neg (by simp [hne])]
      exact ih hn.2 hmem2

/-- Splitting the candidate list around the target recipe, every other
candidate has a different id. -/
theorem candidates_other_ids (s : Store) (r : Recipe) (cs1 cs2 : List Recipe)
    (hn : (s.recipes.map Recipe.id).Nodup)
    (hsplit : s.recipes.filter migrationCandidate = cs1 ++ r :: cs2) :
    (∀ x ∈ cs1, x.id ≠ r.id) ∧ (∀ x ∈ cs2, x.id ≠ r.id) := by
  have hsub : (s.recipes.filter migrationCandidate).Sublist s.recipes :=
    List.filter_sublist _
  have hndc : ((s.recipes.filter migrationCandidate).map Recipe.id).Nodup :=
    List.Nodup.sublist (hsub.map Recipe.id) hn
  rw [hsplit, List.map_append, List.map_cons] at hndc
  rcases List.nodup_append.mp hndc with ⟨_, hn2, hdisj⟩
  rcases List.nodup_cons.mp hn2 with ⟨hrnotin, _⟩
  constructor
  · intro x hx hcon
    have : x.id ∈ cs1.map Recipe.id := List.mem_map_of_mem Recipe.id hx
    exact hdisj this (by rw [hcon]; exact List.mem_cons_self _ _)
  · intro x hx hcon
    exact hrnotin (by rw [← hcon]; exact List.mem_map_of_mem Recipe.id hx)

/-- C8: the legacy-history migration is shape-preserving, idempotent and
failure-isolated.  For every well-formed store (distinct recipe ids and
fresh counters) and every recipe with a non-empty legacy history and no
tree, one run (under any set of injected per-recipe failures not
containing this recipe — other recipes failing do not prevent this one
from being migrated) produces exactly one tree for the recipe, whose
nodes form a straight chain mirroring the history's order with branch
label "original" everywhere and only the last node active, rooted at the
first node; a second run creates no additional tree row and no
additional node for that tree. -/
theorem c8_migration :
    ∀ (s : Store) (failSet : List Nat) (r : Recipe) (entries : List RecipeHistoryEntry),
      (s.recipes.map Recipe.id).Nodup →
      (∀ t ∈ s.trees, t.id < s.nextTreeID) →
      (∀ n ∈ s.nodes, n.id < s.nextNodeID) →
      (∀ n ∈ s.nodes, n.treeID < s.nextTreeID) →
      1 ≤ s.nextTreeID →
      s.trees.filter (fun t => t.recipeID == r.id) = [] →
      r ∈ s.recipes →
      r.history = some entries →
      entries ≠ [] →
      r.treeID = none →
      r.id ∉ failSet →
      migratedShapeB (migrateRecipeHistoryToTree failSet s) r.id entries = true
      ∧ migratedShapeB (migrateRecipeHistoryToTree failSet
          (migrateRecipeHistoryToTree failSet s)) r.id entries = true
      ∧ (migrateRecipeHistoryToTree failSet
            (migrateRecipeHistoryToTree failSet s)).trees.filter
            (fun t => t.recipeID == r.id)
          = (migrateRecipeHistoryToTree failSet s).trees.filter
              (fun t => t.recipeID == r.id)
      ∧ ∀ t ∈ (migrateRecipeHistoryToTree failSet s).trees.filter
            (fun t2 => t2.recipeID == r.id),
          (migrateRecipeHistoryToTree failSet
              (migrateRecipeHistoryToTree failSet s)).nodes.filter
              (fun n => n.treeID == t.id)
            = (migrateRecipeHistoryToTree failSet s).nodes.filter
                (fun n => n.treeID == t.id) := by
  intro s failSet r entries hn hbt hbn hbtn htp hnotree hmem hhist hne htid hfail
  have hcand : migrationCandidate r = true := by
    unfold migrationCandidate
    rw [hhist, htid]
    rfl
  have hmemc : r ∈ s.recipes.filter migrationCandidate :=
    List.mem_filter.mpr ⟨hmem, hcand⟩
  obtain ⟨cs1, cs2, hsplit⟩ := List.append_of_mem hmemc
  obtain ⟨hcs1, hcs2⟩ := candidates_other_ids s r cs1 cs2 hn hsplit
  have hpre0 : PreMigration r s :=
    ⟨hnotree, filter_recipe_by_id_nodup s.recipes r hn hmem, hbt, hbn, hbtn, htp⟩
  have hrun1 : migrateRecipeHistoryToTree failSet s
      = cs2.foldl (migrationStep failSet)
          (migrationStep failSet (cs1.foldl (migrationStep failSet) s) r) := by
    unfold migrateRecipeHistoryToTree
    rw [hsplit, List.foldl_append, List.foldl_cons]
  have hpre1 : PreMigration r (cs1.foldl (migrationStep failSet) s) :=
    migrationFold_pre failSet r cs1 s hcs1 hpre0
  have htrans := migrationStep_transition failSet (cs1.foldl (migrationStep failSet) s)
    r entries hhist hne hfail hpre1
  have htk1 : MigratedForTK r entries (cs1.foldl (migrationStep failSet) s).nextTreeID
      (cs1.foldl (migrationStep failSet) s).nextNodeID
      (migrateRecipeHistoryToTree failSet s) := by
    rw [hrun1]
    exact migrationFold_tk failSet r entries _ _ cs2 _ hcs2 htrans
  obtain ⟨hT1, htr1, hnd1, hrec1, hbt1, hbn1, hbtn1, hTlt1⟩ := htk1
  have hc2 : ∀ x ∈ (migrateRecipeHistoryToTree failSet s).recipes.filter
      migrationCandidate, x.id ≠ r.id := by
    intro x hx hxid
    obtain ⟨hxmem, hxcand⟩ := List.mem_filter.mp hx
    have hxin : x ∈ (migrateRecipeHistoryToTree failSet s).recipes.filter
        (fun y => y.id == r.id) :=
      List.mem_filter.mpr ⟨hxmem, by rw [hxid]; exact beq_self_eq_true _⟩
    rw [hrec1] at hxin
    have hxeq := List.mem_singleton.mp hxin
    rw [hxeq] at hxcand
    unfold migrationCandidate at hxcand
    dsimp only at hxcand
    rw [Bool.and_eq_true] at hxcand
    have : (cs1.foldl (migrationStep failSet) s).nextTreeID = 0 := eq_of_beq hxcand.2
    omega
  have htk2 : MigratedForTK r entries (cs1.foldl (migrationStep failSet) s).nextTreeID
      (cs1.foldl (migrationStep failSet) s).nextNodeID
      (migrateRecipeHistoryToTree failSet (migrateRecipeHistoryToTree failSet s)) := by
    show MigratedForTK r entries _ _
      (((migrateRecipeHistoryToTree failSet s).recipes.filter migrationCandidate).foldl
        (migrationStep failSet) (migrateRecipeHistoryToTree failSet s))
    exact migrationFold_tk failSet r entries _ _ _ _ hc2
      ⟨hT1, htr1, hnd1, hrec1, hbt1, hbn1, hbtn1, hTlt1⟩
  obtain ⟨hT2, htr2, hnd2, hrec2, hbt2, hbn2, hbtn2, hTlt2⟩ := htk2
  refine ⟨?_, ?_, ?_, ?_⟩
  · exact migratedShape_of_tk _ r entries _ _ hne
      ⟨hT1, htr1, hnd1, hrec1, hbt1, hbn1, hbtn1, hTlt1⟩
  · exact migratedShape_of_tk _ r entries _ _ hne
      ⟨hT2, htr2, hnd2, hrec2, hbt2, hbn2, hbtn2, hTlt2⟩
  · rw [htr1, htr2]
  · intro t ht
    rw [htr1] at ht
    have hteq := List.mem_singleton.mp ht
    subst hteq
    dsimp only
    rw [hnd1, hnd2]

/-- Witness for C8 at a concrete store: the other candidate (id 6) is
made to fail, and recipe 5 is still migrated; the double run changes
nothing for recipe 5. -/
theorem c8_migration_witness :
    migratedShapeB (migrateRecipeHistoryToTree [6] c8Store) c8Recipe.id
        [c8Entry1, c8Entry2] = true
    ∧ migratedShapeB (migrateRecipeHistoryToTree [6]
        (migrateRecipeHistoryToTree [6] c8Store)) c8Recipe.id [c8Entry1, c8Entry2] = true
    ∧ (migrateRecipeHistoryToTree [6]
          (migrateRecipeHistoryToTree [6] c8Store)).trees.filter
          (fun t => t.recipeID == c8Recipe.id)
        = (migrateRecipeHistoryToTree [6] c8Store).trees.filter
            (fun t => t.recipeID == c8Recipe.id)
    ∧ ∀ t ∈ (migrateRecipeHistoryToTree [6] c8Store).trees.filter
          (fun t2 => t2.recipeID == c8Recipe.id),
        (migrateRecipeHistoryToTree [6]
            (migrateRecipeHistoryToTree [6] c8Store)).nodes.filter
            (fun n => n.treeID == t.id)
          = (migrateRecipeHistoryToTree [6] c8Store).nodes.filter
              (fun n => n.treeID == t.id) :=
  c8_migration c8Store [6] c8Recipe [c8Entry1, c8Entry2] (by decide) (by decide)
    (by decide) (by decide) (by decide) rfl (by decide) rfl (by decide) rfl (by decide)

end SaltyBytes
